import Mathlib

/-!
Verification development for the CargoSync load & route optimization core.

The definitions below are shallow embeddings of the TypeScript source:
  * `packItems` and its helpers embed the free-space 3-D bin packer of
    `src/server/routers/optimize.ts` (lines 64-223);
  * the `runOptimizationV3` pipeline and its helpers embed the multi-trip
    fleet optimizer of the global-optimize router (`src/unnamed/part_000`,
    lines 123-759), including `canFitInTrip`, `loadOrderIntoTrip`,
    `optimizeZoneOrder`, `getTripRouteTime`, `getTruckTotalRouteTime` and
    `generateLoadPlan`;
  * `assignOrdersToTrucks` embeds the single-trip planner of
    `src/unnamed/part_001` (lines 113-211).

Modelling conventions:
  * JavaScript numbers are modelled as exact integers (`Int`) for every
    quantity the control flow compares (dimensions, weights, volumes,
    travel minutes); quantities that the source derives by division
    (center of gravity, utilization percentages, the depth/3 section
    bounds of the load-plan generator) are modelled in `Rat`.
  * `Array.prototype.sort` with a consistent comparator is stable in
    JavaScript; it is modelled by Mathlib's stable `List.insertionSort`.
  * JavaScript objects used as string-keyed maps (`Record<string, T[]>`)
    preserve key insertion order; they are modelled as association lists.
  * In-place mutation of trucks shared between the fleet array and the
    zone map is modelled by indexing into one authoritative fleet list.
-/

/-! ### Generic helpers -/

/-- JS `Math.round`: round half toward positive infinity. -/
def jsRound (q : ℚ) : ℤ := ⌊q + 1 / 2⌋

/-- JS `v || d` for a number: `0` is falsy and replaced by the default. -/
def jsOrInt (v d : ℤ) : ℤ := if v = 0 then d else v

/-- JS `v || d` for an optional string: `null` and `""` are falsy. -/
def jsOrStr (v : Option String) (d : String) : String :=
  match v with
  | Option.none => d
  | Option.some s => if s = "" then d else s

/-- Lexicographic comparison of char lists, as JS compares strings
(UTF-16 code units; identical to code points on ASCII zone names). -/
def charListLe : List Char → List Char → Bool
  | [], _ => true
  | _ :: _, [] => false
  | a :: as, b :: bs => if a < b then true else if b < a then false else charListLe as bs

/-- JS default string ordering used by `Array.prototype.sort` on strings. -/
def strLe (a b : String) : Bool := charListLe a.data b.data

/-- Replace the element at index `i` (no-op when out of range), modelling
an in-place update of one array slot. -/
def modifyAt {α : Type} (l : List α) (i : ℕ) (f : α → α) : List α :=
  match l.get? i with
  | Option.some a => l.set i (f a)
  | Option.none => l

/-- Apply `f` to the last element of a list, modelling a mutation of
`arr[arr.length - 1]`. -/
def updateLast {α : Type} (f : α → α) : List α → List α
  | [] => []
  | [a] => [f a]
  | a :: b :: rest => a :: updateLast f (b :: rest)

/-- Association list with string keys, preserving insertion order, the
model of a JS `Record<string, _>` built by repeated insertion. -/
abbrev ZRecord (α : Type) := List (String × α)

/-- Lookup in a `ZRecord` with a default, the model of `rec[k] || d`. -/
def recGetD {α : Type} (r : ZRecord α) (k : String) (d : α) : α :=
  ((r.find? (fun p => p.1 == k)).map (fun p => p.2)).getD d

/-- `if (!rec[k]) rec[k] = []; rec[k].push(v)` on a JS record. -/
def recPush {α : Type} (r : ZRecord (List α)) (k : String) (v : α) : ZRecord (List α) :=
  if (r.find? (fun p => p.1 == k)).isSome then
    r.map (fun p => if p.1 == k then (p.1, p.2 ++ [v]) else p)
  else r ++ [(k, [v])]

/-! ### Free-space 3-D bin packer (`src/server/routers/optimize.ts`) -/

/-- One physical unit item handed to the bin packer (`Item`). -/
structure Item where
  id : ℤ
  orderItemId : ℤ
  orderId : ℤ
  name : String
  length : ℤ
  width : ℤ
  height : ℤ
  weight : ℤ
  volume : ℤ
  deriving DecidableEq

/-- A placed item with its position and applied rotation (`PackedItem`). -/
structure PackedItem where
  item : Item
  x : ℤ
  y : ℤ
  z : ℤ
  rotation : ℤ
  rotatedLength : ℤ
  rotatedWidth : ℤ
  deriving DecidableEq

/-- An axis-aligned free box tracked by the packer (`spaces` entries). -/
structure FreeSpace where
  x : ℤ
  y : ℤ
  z : ℤ
  w : ℤ
  d : ℤ
  h : ℤ
  deriving DecidableEq

/-- The container (`Bin`); the TS interface also carries mutable
`items`/`usedVolume`/`usedWeight` fields that `packItems` never reads. -/
structure Bin where
  width : ℤ
  depth : ℤ
  height : ℤ
  maxWeight : ℤ
  deriving DecidableEq

/-- `rot.length <= space.w && rot.width <= space.d && item.height <= space.h`. -/
def spaceFits (len wid hgt : ℤ) (s : FreeSpace) : Bool :=
  decide (len ≤ s.w) && decide (wid ≤ s.d) && decide (hgt ≤ s.h)

/-- The strict Bottom-Left-Back preference test of the space-selection
loop: `space.z < best.z`, or tie on z and `space.y < best.y`, or tie on
z and y and `space.x < best.x`. -/
def spaceBetter (s best : FreeSpace) : Bool :=
  decide (s.z < best.z) ||
  (decide (s.z = best.z) && decide (s.y < best.y)) ||
  (decide (s.z = best.z) && decide (s.y = best.y) && decide (s.x < best.x))

/-- The space-selection loop of `packItems`: scan all free spaces, keep
the index of the first space that fits and is strictly better than the
current best. -/
def findBestSpace (len wid hgt : ℤ) (spaces : List FreeSpace) : Option (ℕ × FreeSpace) :=
  spaces.enum.foldl
    (fun best p =>
      if spaceFits len wid hgt p.2 then
        match best with
        | Option.none => Option.some p
        | Option.some q => if spaceBetter p.2 q.2 then Option.some p else best
      else best)
    Option.none

/-- The three candidate free boxes emitted on placement: the `+x`
remainder, the `+y` remainder and the remainder above, each kept only
when its remaining dimension is strictly positive. -/
def newSpaces (s : FreeSpace) (len wid hgt : ℤ) : List FreeSpace :=
  (if 0 < s.w - len then
    [{ x := s.x + len, y := s.y, z := s.z, w := s.w - len, d := s.d, h := s.h }] else []) ++
  (if 0 < s.d - wid then
    [{ x := s.x, y := s.y + wid, z := s.z, w := len, d := s.d - wid, h := s.h }] else []) ++
  (if 0 < s.h - hgt then
    [{ x := s.x, y := s.y, z := s.z + hgt, w := len, d := wid, h := s.h - hgt }] else [])

/-- Mutable state of the packing loop. -/
structure PackState where
  packedItems : List PackedItem
  unpackedItems : List Item
  spaces : List FreeSpace
  totalWeight : ℤ
  totalVolume : ℤ
  deriving DecidableEq

/-- Attempt to place one item in one rotation: find the best fitting free
space; on success remove it, append the placed item and the freshly cut
remainder spaces, and add the item's weight and volume to the totals. -/
def tryRotation (st : PackState) (it : Item) (rotVal len wid : ℤ) : Option PackState :=
  match findBestSpace len wid it.height st.spaces with
  | Option.none => Option.none
  | Option.some p =>
    Option.some { st with
      packedItems := st.packedItems ++
        [{ item := it, x := p.2.x, y := p.2.y, z := p.2.z,
           rotation := rotVal, rotatedLength := len, rotatedWidth := wid }],
      spaces := st.spaces.eraseIdx p.1 ++ newSpaces p.2 len wid it.height,
      totalWeight := st.totalWeight + it.weight,
      totalVolume := st.totalVolume + it.volume }

/-- Body of the packing loop for one item: reject on the weight bound
before any placement attempt, otherwise try rotation 0 then rotation 90,
and record the item as unpacked when neither rotation fits. -/
def packOne (bin : Bin) (st : PackState) (it : Item) : PackState :=
  if bin.maxWeight < st.totalWeight + it.weight then
    { st with unpackedItems := st.unpackedItems ++ [it] }
  else
    match tryRotation st it 0 it.length it.width with
    | Option.some st2 => st2
    | Option.none =>
      match tryRotation st it 90 it.width it.length with
      | Option.some st2 => st2
      | Option.none => { st with unpackedItems := st.unpackedItems ++ [it] }

/-- `[...items].sort((a, b) => b.volume - a.volume)`: stable descending
sort by volume (First-Fit-Decreasing order). -/
def sortByVolumeDesc (items : List Item) : List Item :=
  @List.insertionSort Item (fun a b => b.volume ≤ a.volume) (fun a b => Int.decLe b.volume a.volume) items

/-- Initial packing state: one free box equal to the whole container. -/
def initPackState (bin : Bin) : PackState :=
  { packedItems := [], unpackedItems := [],
    spaces := [{ x := 0, y := 0, z := 0, w := bin.width, d := bin.depth, h := bin.height }],
    totalWeight := 0, totalVolume := 0 }

/-- The packing loop of `packItems`: fold the per-item step over the
volume-sorted items. -/
def packRun (items : List Item) (bin : Bin) : PackState :=
  (sortByVolumeDesc items).foldl (packOne bin) (initPackState bin)

/-- Weight-weighted sums of the packed items' geometric centers
(`cogX`, `cogY`, `cogZ` accumulators before the final division). -/
def cogSums (packed : List PackedItem) : ℚ × ℚ × ℚ :=
  packed.foldl
    (fun acc p =>
      (acc.1 + ((p.x : ℚ) + (p.rotatedLength : ℚ) / 2) * (p.item.weight : ℚ),
       acc.2.1 + ((p.y : ℚ) + (p.rotatedWidth : ℚ) / 2) * (p.item.weight : ℚ),
       acc.2.2 + ((p.z : ℚ) + (p.item.height : ℚ) / 2) * (p.item.weight : ℚ)))
    (0, 0, 0)

/-- Result record of `packItems` (`OptimizationResult`). -/
structure OptimizationResult where
  success : Bool
  packedItems : List PackedItem
  unpackedItems : List Item
  totalVolume : ℤ
  usedVolume : ℤ
  volumeUtilization : ℚ
  totalWeight : ℤ
  weightUtilization : ℚ
  centerOfGravity : ℚ × ℚ × ℚ
  isBalanced : Bool

/-- The full bin packer `packItems`: run the packing loop, then compute
center of gravity (origin when no weight was packed) and the balance
flag (centroid within the middle 60 percent on x and y; z unchecked). -/
def packItems (items : List Item) (bin : Bin) : OptimizationResult :=
  let st := packRun items bin
  let sums := cogSums st.packedItems
  let cog : ℚ × ℚ × ℚ :=
    if 0 < st.totalWeight then
      (sums.1 / (st.totalWeight : ℚ), sums.2.1 / (st.totalWeight : ℚ),
       sums.2.2 / (st.totalWeight : ℚ))
    else (0, 0, 0)
  let balanced : Bool :=
    decide (|cog.1 - (bin.width : ℚ) / 2| ≤ (bin.width : ℚ) * (3 / 10)) &&
    decide (|cog.2.1 - (bin.depth : ℚ) / 2| ≤ (bin.depth : ℚ) * (3 / 10))
  { success := st.unpackedItems.isEmpty,
    packedItems := st.packedItems,
    unpackedItems := st.unpackedItems,
    totalVolume := bin.width * bin.depth * bin.height,
    usedVolume := st.totalVolume,
    volumeUtilization := (st.totalVolume : ℚ) / ((bin.width * bin.depth * bin.height : ℤ) : ℚ) * 100,
    totalWeight := st.totalWeight,
    weightUtilization := (st.totalWeight : ℚ) / (bin.maxWeight : ℚ) * 100,
    centerOfGravity := cog,
    isBalanced := balanced }

/-! ### Global optimizer V3 data model (`src/unnamed/part_000`) -/

/-- One order line item (`ItemData`). -/
structure ItemData where
  id : ℤ
  orderId : ℤ
  skuId : ℤ
  quantity : ℕ
  name : String
  length : ℤ
  width : ℤ
  height : ℤ
  weight : ℤ
  deriving DecidableEq

/-- The `helpersRequired` enumeration (`"none" | "one" | "two"`). -/
inductive HelpersRequired
  | none
  | one
  | two
  deriving DecidableEq

/-- Helper headcount per requirement (`HELPER_OPTIONS[_].count`). -/
def helperCount : HelpersRequired → ℕ
  | HelpersRequired.none => 0
  | HelpersRequired.one => 1
  | HelpersRequired.two => 2

/-- An order as consumed by the V3 optimizer (`OrderData`). -/
structure OrderData where
  id : ℤ
  orderNumber : String
  zipcode : String
  zone : String
  sector : String
  latitude : Option ℚ
  longitude : Option ℚ
  helpersRequired : HelpersRequired
  totalWeight : ℤ
  totalVolume : ℤ
  maxLength : ℤ
  maxWidth : ℤ
  maxHeight : ℤ
  needsTwoPeople : Bool
  items : List ItemData
  deriving DecidableEq

/-- A truck (`TruckData`); `volume` is `width * depth * height`. -/
structure TruckData where
  id : ℤ
  name : String
  width : ℤ
  depth : ℤ
  height : ℤ
  maxWeight : ℤ
  volume : ℤ
  deriving DecidableEq

/-- One loading cycle of a truck (`TruckTrip`). -/
structure TruckTrip where
  tripId : ℕ
  truckId : ℤ
  maxVolume : ℤ
  maxWeight : ℤ
  truckDims : List ℤ
  loadedOrders : List OrderData
  currentVolume : ℤ
  currentWeight : ℤ
  assignedZones : List String
  deriving DecidableEq

/-- A truck with its trips and run totals (`TruckWithTrips`). -/
structure TruckWithTrips where
  truck : TruckData
  trips : List TruckTrip
  totalOrders : ℕ
  totalVolumeUsed : ℤ
  totalWeightUsed : ℤ
  totalRouteTime : ℤ
  deriving DecidableEq

/-- `[...dims].sort((a, b) => b - a)`: integers sorted descending. -/
def sortDescInt (l : List ℤ) : List ℤ :=
  @List.insertionSort ℤ (fun a b => b ≤ a) (fun a b => Int.decLe b a) l

/-- `canFitInTrip`: remaining volume and weight must cover the order's
totals, and the order's three max dimensions, sorted descending, must be
elementwise at most the truck's dimensions sorted descending. -/
def canFitInTrip (trip : TruckTrip) (order : OrderData) : Bool :=
  if trip.maxVolume < trip.currentVolume + order.totalVolume then false
  else if trip.maxWeight < trip.currentWeight + order.totalWeight then false
  else
    let dims := sortDescInt trip.truckDims
    let orderDims := sortDescInt [order.maxLength, order.maxWidth, order.maxHeight]
    (orderDims.zip dims).all (fun p => decide (p.1 ≤ p.2))

/-- `loadOrderIntoTrip`: append the order, add its totals to the running
volume and weight, and record its zone when new. -/
def loadOrderIntoTrip (trip : TruckTrip) (order : OrderData) : TruckTrip :=
  { trip with
    loadedOrders := trip.loadedOrders ++ [order],
    currentVolume := trip.currentVolume + order.totalVolume,
    currentWeight := trip.currentWeight + order.totalWeight,
    assignedZones :=
      if trip.assignedZones.contains order.zone then trip.assignedZones
      else trip.assignedZones ++ [order.zone] }

/-! ### Zone and travel model (`src/unnamed/part_000`, lines 155-183) -/

/-- `ZONE_TRAVEL_TIMES`: depot-to-zone travel minutes. -/
def ZONE_TRAVEL_TIMES : String → Option ℤ := fun z =>
  match z with
  | "West" => Option.some 15
  | "Central" => Option.some 30
  | "South" => Option.some 35
  | "East" => Option.some 45
  | "North" => Option.some 40
  | _ => Option.none

/-- `ZONE_TRAVEL_TIMES[z] || 30` (all stored values are nonzero). -/
def zoneTravelTimeD (z : String) : ℤ := (ZONE_TRAVEL_TIMES z).getD 30

/-- `INTER_ZONE_TIMES`, keyed by the lexicographically sorted zone pair. -/
def INTER_ZONE_TIMES : String → String → Option ℤ := fun a b =>
  match a, b with
  | "Central", "East" => Option.some 25
  | "Central", "North" => Option.some 20
  | "Central", "South" => Option.some 15
  | "Central", "West" => Option.some 20
  | "East", "North" => Option.some 25
  | "East", "South" => Option.some 30
  | "East", "West" => Option.some 40
  | "North", "South" => Option.some 35
  | "North", "West" => Option.some 35
  | "South", "West" => Option.some 25
  | _, _ => Option.none

/-- `getInterZoneTime`: 5 minutes within a zone, else the table entry for
the sorted pair, defaulting to 30. -/
def getInterZoneTime (z1 z2 : String) : ℤ :=
  if z1 = z2 then 5
  else
    let p := if strLe z1 z2 then (z1, z2) else (z2, z1)
    (INTER_ZONE_TIMES p.1 p.2).getD 30

/-- `DEPOT_RELOAD_TIME`: reload minutes at the depot between trips. -/
def DEPOT_RELOAD_TIME : ℤ := 30

/-- `Array.from(new Set(zones))`: dedupe keeping first occurrences. -/
def uniqueZones (zones : List String) : List String :=
  zones.foldl (fun acc z => if acc.contains z then acc else acc ++ [z]) []

/-- `optimizeZoneOrder`: dedupe, then (when more than one zone) sort
ascending by depot travel time. -/
def optimizeZoneOrder (zones : List String) : List String :=
  let u := uniqueZones zones
  if u.length ≤ 1 then u
  else
    @List.insertionSort String (fun a b => zoneTravelTimeD a ≤ zoneTravelTimeD b)
      (fun a b => Int.decLe (zoneTravelTimeD a) (zoneTravelTimeD b)) u

/-- The per-stop service minutes added inside `getTripRouteTime`:
`order.needsTwoPeople ? 15 : 10`. -/
def stopServiceTime (o : OrderData) : ℤ := if o.needsTwoPeople then 15 else 10

/-- The inter-zone legs of a zone visiting sequence. -/
def interZoneLegs : List String → ℤ
  | z1 :: z2 :: rest => getInterZoneTime z1 z2 + interZoneLegs (z2 :: rest)
  | _ => 0

/-- `getTripRouteTime`: 0 for an empty trip, otherwise depot leg plus
inter-zone legs plus per-stop service times plus the optional return leg. -/
def getTripRouteTime (trip : TruckTrip) (includeReturn : Bool) : ℤ :=
  if trip.loadedOrders.isEmpty then 0
  else
    match optimizeZoneOrder trip.assignedZones with
    | [] => 0
    | z :: rest =>
      zoneTravelTimeD z + interZoneLegs (z :: rest)
        + (trip.loadedOrders.map stopServiceTime).sum
        + (if includeReturn then zoneTravelTimeD ((z :: rest).getLast (List.cons_ne_nil z rest)) else 0)

/-- `getTruckTotalRouteTime`: sum of per-trip times (with return), adding
the depot reload time after every trip but the last. -/
def getTruckTotalRouteTime : List TruckTrip → ℤ
  | [] => 0
  | [t] => getTripRouteTime t true
  | t :: t2 :: rest => getTripRouteTime t true + DEPOT_RELOAD_TIME + getTruckTotalRouteTime (t2 :: rest)

/-- `needsTwoPeople` as computed when `autoOptimize` builds an
`OrderData` from the database rows: `totalWeight > 50`. -/
def computedNeedsTwoPeople (totalWeight : ℤ) : Bool := decide (50 < totalWeight)

/-! ### The V3 optimization pipeline (`runOptimizationV3`) -/

/-- The first trip created for each truck. -/
def initialTrip (t : TruckData) : TruckTrip :=
  { tripId := 1, truckId := t.id, maxVolume := t.volume, maxWeight := t.maxWeight,
    truckDims := [t.width, t.depth, t.height], loadedOrders := [],
    currentVolume := 0, currentWeight := 0, assignedZones := [] }

/-- Initialization of `trucksWithTrips`: one empty trip per truck. -/
def initFleet (trucksData : List TruckData) : List TruckWithTrips :=
  trucksData.map (fun t =>
    { truck := t, trips := [initialTrip t],
      totalOrders := 0, totalVolumeUsed := 0, totalWeightUsed := 0, totalRouteTime := 0 })

/-- Step 1: group the orders by zone (key insertion order preserved). -/
def groupByZone (orders : List OrderData) : ZRecord (List OrderData) :=
  orders.foldl (fun rec o => recPush rec o.zone o) []

/-- Stable descending sort of orders by total volume (BFD order). -/
def sortOrdersByVolumeDesc (orders : List OrderData) : List OrderData :=
  @List.insertionSort OrderData (fun a b => b.totalVolume ≤ a.totalVolume)
    (fun a b => Int.decLe b.totalVolume a.totalVolume) orders

/-- Step 1 continued: each zone's orders sorted descending by volume. -/
def zoneOrdersSorted (ordersData : List OrderData) : ZRecord (List OrderData) :=
  (groupByZone ordersData).map (fun p => (p.1, sortOrdersByVolumeDesc p.2))

/-- A zone's total demand volume (`zoneDemands[zone].volume`). -/
def zoneDemandVolume (orders : List OrderData) : ℤ := (orders.map (fun o => o.totalVolume)).sum

/-- Step 2: zones sorted descending by demand volume. -/
def sortedZonesOf (zo : ZRecord (List OrderData)) : List String :=
  (@List.insertionSort (String × List OrderData)
    (fun a b => zoneDemandVolume b.2 ≤ zoneDemandVolume a.2)
    (fun a b => Int.decLe (zoneDemandVolume b.2) (zoneDemandVolume a.2)) zo).map (fun p => p.1)

/-- `trucksWithTrips.sort((a, b) => b.truck.volume - a.truck.volume)`. -/
def sortFleet (fleet : List TruckWithTrips) : List TruckWithTrips :=
  @List.insertionSort TruckWithTrips (fun a b => b.truck.volume ≤ a.truck.volume)
    (fun a b => Int.decLe b.truck.volume a.truck.volume) fleet

/-- The truck-assignment loop for one zone: walk the fleet in order,
skip trucks already used, stop once the assigned volume covers the
demand, and otherwise claim the truck for the zone. Returns the claimed
fleet indices and the updated used-truck ids. -/
def assignTrucksToZoneGo (fleet : List TruckWithTrips) (needed : ℤ) :
    List ℕ → List ℤ → ℤ → List ℕ × List ℤ
  | [], used, _ => ([], used)
  | i :: rest, used, accVol =>
    match fleet.get? i with
    | Option.none => ([], used)
    | Option.some t =>
      if used.contains t.truck.id then assignTrucksToZoneGo fleet needed rest used accVol
      else if needed ≤ accVol then ([], used)
      else
        let res := assignTrucksToZoneGo fleet needed rest (used ++ [t.truck.id]) (accVol + t.truck.volume)
        (i :: res.1, res.2)

/-- Step 2: build `zoneTruckMap` zone by zone in demand order. -/
def buildZoneTruckMap (fleet : List TruckWithTrips) (zo : ZRecord (List OrderData))
    (zones : List String) : ZRecord (List ℕ) × List ℤ :=
  zones.foldl
    (fun acc z =>
      let needed := zoneDemandVolume (recGetD zo z [])
      let res := assignTrucksToZoneGo fleet needed (List.range fleet.length) acc.2 0
      (acc.1 ++ [(z, res.1)], res.2))
    ([], [])

/-- Step 2 end: every still-unused truck goes to the highest-demand zone
(`sortedZones[0] || 'Central'`). -/
def addRemainingTrucks (fleet : List TruckWithTrips) (zones : List String)
    (st : ZRecord (List ℕ) × List ℤ) : ZRecord (List ℕ) × List ℤ :=
  let bestZone := zones.headD "Central"
  (List.range fleet.length).foldl
    (fun acc i =>
      match fleet.get? i with
      | Option.none => acc
      | Option.some t =>
        if acc.2.contains t.truck.id then acc
        else (recPush acc.1 bestZone i, acc.2 ++ [t.truck.id]))
    st

/-- `truckWithTrips.trips[truckWithTrips.trips.length - 1]`; the
fallback is never reached because every truck keeps at least one trip. -/
def lastTripD (t : TruckWithTrips) : TruckTrip := t.trips.getLast?.getD (initialTrip t.truck)

/-- Load an order into a truck's current (last) trip. -/
def loadIntoLastTrip (t : TruckWithTrips) (o : OrderData) : TruckWithTrips :=
  { t with trips := updateLast (fun trip => loadOrderIntoTrip trip o) t.trips }

/-- The best-fit scan of step 3: among the zone's trucks whose current
trip fits the order, the one leaving the least residual volume (first
wins ties). -/
def bestFitIndex (fleet : List TruckWithTrips) (idxs : List ℕ) (o : OrderData) : Option ℕ :=
  (idxs.foldl
    (fun (best : Option (ℕ × ℤ)) i =>
      match fleet.get? i with
      | Option.none => best
      | Option.some t =>
        let trip := lastTripD t
        if canFitInTrip trip o then
          let remaining := trip.maxVolume - trip.currentVolume - o.totalVolume
          match best with
          | Option.none => Option.some (i, remaining)
          | Option.some q => if remaining < q.2 then Option.some (i, remaining) else best
        else best)
    Option.none).map (fun p => p.1)

/-- The fallback scan of step 3: the first truck in fleet order whose
current trip fits the order. -/
def firstFitIndex (fleet : List TruckWithTrips) (o : OrderData) : Option ℕ :=
  (List.range fleet.length).find? (fun i =>
    match fleet.get? i with
    | Option.none => false
    | Option.some t => canFitInTrip (lastTripD t) o)

/-- Mutable state of steps 3 and 4: the fleet and the unassigned pile. -/
structure V3State where
  fleet : List TruckWithTrips
  unassigned : List OrderData
  deriving DecidableEq

/-- Step 3 body for one order: best fit among the zone's trucks, else
first fit over the whole fleet, else unassigned. -/
def step3Order (zidxs : List ℕ) (st : V3State) (o : OrderData) : V3State :=
  match bestFitIndex st.fleet zidxs o with
  | Option.some i => { st with fleet := modifyAt st.fleet i (fun t => loadIntoLastTrip t o) }
  | Option.none =>
    match firstFitIndex st.fleet o with
    | Option.some i => { st with fleet := modifyAt st.fleet i (fun t => loadIntoLastTrip t o) }
    | Option.none => { st with unassigned := st.unassigned ++ [o] }

/-- Step 3: pack every zone's orders in demand order. -/
def step3 (zo : ZRecord (List OrderData)) (ztm : ZRecord (List ℕ)) (zones : List String)
    (st : V3State) : V3State :=
  zones.foldl (fun st z => (recGetD zo z []).foldl (step3Order (recGetD ztm z [])) st) st

/-- The fresh trip opened by step 4 on a truck. -/
def newTripFor (t : TruckWithTrips) : TruckTrip :=
  { tripId := t.trips.length + 1, truckId := t.truck.id, maxVolume := t.truck.volume,
    maxWeight := t.truck.maxWeight, truckDims := [t.truck.width, t.truck.depth, t.truck.height],
    loadedOrders := [], currentVolume := 0, currentWeight := 0, assignedZones := [] }

/-- `[...trucksWithTrips].sort((a, b) => b.truck.volume - a.truck.volume)`
as fleet indices (the fleet itself is not reordered in step 4). -/
def sortIdxByVolume (fleet : List TruckWithTrips) : List ℕ :=
  @List.insertionSort ℕ
    (fun i j => (((fleet.get? j).map (fun t => t.truck.volume)).getD 0) ≤
                (((fleet.get? i).map (fun t => t.truck.volume)).getD 0))
    (fun i j => Int.decLe (((fleet.get? j).map (fun t => t.truck.volume)).getD 0)
                (((fleet.get? i).map (fun t => t.truck.volume)).getD 0))
    (List.range fleet.length)

/-- The truck scan of step 4 for one order: load into the current trip
when it fits; otherwise open a new trip and load into it when the order
fits there, and otherwise keep the freshly opened empty trip and move on
to the next truck. Returns the updated fleet and whether the order was
packed. -/
def step4Go (o : OrderData) : List ℕ → List TruckWithTrips → List TruckWithTrips × Bool
  | [], fleet => (fleet, false)
  | i :: rest, fleet =>
    match fleet.get? i with
    | Option.none => step4Go o rest fleet
    | Option.some t =>
      if canFitInTrip (lastTripD t) o then
        (modifyAt fleet i (fun t2 => loadIntoLastTrip t2 o), true)
      else
        let t2 := { t with trips := t.trips ++ [newTripFor t] }
        if canFitInTrip (newTripFor t) o then
          (fleet.set i (loadIntoLastTrip t2 o), true)
        else
          step4Go o rest (fleet.set i t2)

/-- Step 4 body for one order. -/
def step4One (st : V3State) (o : OrderData) : V3State :=
  let res := step4Go o (sortIdxByVolume st.fleet) st.fleet
  if res.2 then { st with fleet := res.1 }
  else { fleet := res.1, unassigned := st.unassigned ++ [o] }

/-- Step 4: retry every order left unassigned by step 3, in descending
volume order, against a fresh empty unassigned pile. -/
def step4 (st : V3State) : V3State :=
  (sortOrdersByVolumeDesc st.unassigned).foldl step4One { fleet := st.fleet, unassigned := [] }

/-- Per-truck totals computed after packing. -/
def finalizeTruck (t : TruckWithTrips) : TruckWithTrips :=
  { t with
    totalOrders := (t.trips.map (fun tr => tr.loadedOrders.length)).sum,
    totalVolumeUsed := (t.trips.map (fun tr => tr.currentVolume)).sum,
    totalWeightUsed := (t.trips.map (fun tr => tr.currentWeight)).sum,
    totalRouteTime := getTruckTotalRouteTime t.trips }

/-- The summary block of the V3 result. -/
structure V3Summary where
  totalOrders : ℕ
  assignedOrders : ℕ
  unassignedOrders : ℕ
  assignmentRate : ℚ
  totalTrips : ℕ
  totalElapsedTimeMin : ℤ
  totalElapsedTimeHours : ℚ
  fleetVolumeUtilization : ℚ
  depotReloadTimePerTripMin : ℤ

/-- The V3 result; the `parallelDeployment` and `zoneSummary` report
blocks of the source, which no claim touches, are not modelled. -/
structure V3Result where
  trucksWithTrips : List TruckWithTrips
  unassignedOrders : List OrderData
  summary : V3Summary

/-- The packing phase of `runOptimizationV3` (steps 1-4): initialize and
sort the fleet, group and sort the orders by zone, map trucks to zones by
demand, pack (step 3), and retry with multi-trip support (step 4). -/
def v3FinalState (ordersData : List OrderData) (trucksData : List TruckData) : V3State :=
  let fleet0 := sortFleet (initFleet trucksData)
  let zo := zoneOrdersSorted ordersData
  let zones := sortedZonesOf zo
  let ztm := (addRemainingTrucks fleet0 zones (buildZoneTruckMap fleet0 zo zones)).1
  step4 (step3 zo ztm zones { fleet := fleet0, unassigned := [] })

/-- `runOptimizationV3`: run the packing phase, then compute per-truck
totals and the summary. -/
def runOptimizationV3 (ordersData : List OrderData) (trucksData : List TruckData) : V3Result :=
  let st4 := v3FinalState ordersData trucksData
  let fleetF := st4.fleet.map finalizeTruck
  let totalAssigned := (fleetF.map (fun t => t.totalOrders)).sum
  let maxTruckTime := (fleetF.map (fun t => t.totalRouteTime)).foldr max 0
  let totalFleetVolume := (trucksData.map (fun t => t.volume)).sum
  let totalVolumeUsed := (fleetF.map (fun t => t.totalVolumeUsed)).sum
  { trucksWithTrips := fleetF,
    unassignedOrders := st4.unassigned,
    summary :=
      { totalOrders := ordersData.length,
        assignedOrders := totalAssigned,
        unassignedOrders := st4.unassigned.length,
        assignmentRate :=
          ((jsRound (((totalAssigned : ℚ) / (ordersData.length : ℚ)) * 1000) : ℚ)) / 10,
        totalTrips := (fleetF.map (fun t => t.trips.length)).sum,
        totalElapsedTimeMin := maxTruckTime,
        totalElapsedTimeHours := ((jsRound ((maxTruckTime : ℚ) / 60 * 100) : ℚ)) / 100,
        fleetVolumeUtilization :=
          if 0 < totalFleetVolume then
            ((jsRound (((totalVolumeUsed : ℚ) / (totalFleetVolume : ℚ)) * 1000) : ℚ)) / 10
          else 0,
        depotReloadTimePerTripMin := DEPOT_RELOAD_TIME } }

/-- The unassigned-order report emitted by `autoOptimize` from the V3
result (lines 931-938 of the router). -/
structure UnassignedReport where
  id : ℤ
  orderNumber : String
  zone : String
  volumeM3 : ℚ
  weightKg : ℚ
  reason : String

/-- `result.unassignedOrders.map(o => ({ ..., reason: "No available truck
with capacity" }))`. -/
def reportUnassigned (l : List OrderData) : List UnassignedReport :=
  l.map (fun o =>
    { id := o.id, orderNumber := o.orderNumber, zone := o.zone,
      volumeM3 := ((jsRound ((o.totalVolume : ℚ) / 1000000 * 1000) : ℚ)) / 1000,
      weightKg := ((jsRound ((o.totalWeight : ℚ) * 100) : ℚ)) / 100,
      reason := "No available truck with capacity" })

/-! ### Load-plan generator (`generateLoadPlan`, `src/unnamed/part_000`) -/

/-- A stop of a trip's optimized route (`RouteStop`). -/
structure RouteStop where
  orderId : ℤ
  orderNumber : String
  sequence : ℕ
  zone : String
  zipcode : String
  sector : String
  latitude : ℚ
  longitude : ℚ
  weightKg : ℚ
  volumeM3 : ℚ
  needsTwoPeople : Bool
  deriving DecidableEq

/-- The front / middle / back placement label. -/
inductive Placement
  | front
  | middle
  | back
  deriving DecidableEq

/-- One placed unit of the section-based load plan (`LoadPlanItem`). -/
structure LoadPlanItem where
  orderItemId : ℤ
  orderId : ℤ
  name : String
  x : ℚ
  y : ℚ
  z : ℚ
  rotatedLength : ℤ
  rotatedWidth : ℤ
  height : ℤ
  weight : ℤ
  rotation : ℤ
  placement : Placement
  deriving DecidableEq

/-- One expanded item unit tagged with its order and stop sequence
(`{ ...item, orderId: order.id, sequence }`). -/
structure UnitItem where
  item : ItemData
  orderId : ℤ
  sequence : ℕ
  deriving DecidableEq

/-- Expand every loaded order's items by quantity, tagging each unit with
the order's stop sequence (999 when the order has no route stop). -/
def expandUnits (trip : TruckTrip) (route : List RouteStop) : List UnitItem :=
  trip.loadedOrders.foldl
    (fun acc o =>
      let seq := (((route.find? (fun r => r.orderId == o.id)).map (fun r => r.sequence))).getD 999
      acc ++ o.items.foldl
        (fun acc2 it => acc2 ++ List.replicate it.quantity { item := it, orderId := o.id, sequence := seq })
        [])
    []

/-- `allItems.sort((a, b) => b.sequence - a.sequence)`: stable descending
sort by stop sequence (last-delivered first). -/
def sortUnitsBySeqDesc (units : List UnitItem) : List UnitItem :=
  @List.insertionSort UnitItem (fun a b => b.sequence ≤ a.sequence)
    (fun a b => Nat.decLe b.sequence a.sequence) units

/-- The section-assignment loop: with `k = ceil(n / 3)`, indices below
`k` go to the back section, indices below `2k` to the middle, the rest
to the front. -/
def sectionsSplit (units : List UnitItem) : List UnitItem × List UnitItem × List UnitItem :=
  let k := (units.length + 2) / 3
  units.enum.foldl
    (fun acc p =>
      if p.1 < k then (acc.1 ++ [p.2], acc.2.1, acc.2.2)
      else if p.1 < k * 2 then (acc.1, acc.2.1 ++ [p.2], acc.2.2)
      else (acc.1, acc.2.1, acc.2.2 ++ [p.2]))
    ([], [], [])

/-- Mutable cursor state of the shelf-packing loop inside one section. -/
structure ShelfState where
  x : ℚ
  y : ℚ
  z : ℚ
  layerHeight : ℚ
  rowWidth : ℚ
  plan : List LoadPlanItem
  deriving DecidableEq

/-- One step of the shelf packer: wrap to a new row when the item would
exceed the truck width, wrap to a new layer when the row would exceed the
section's y-bound, silently skip the item when it would exceed the truck
height (the cursor adjustments persist), and otherwise place it. -/
def shelfStep (truck : TruckData) (startY endY : ℚ) (secName : Placement)
    (st : ShelfState) (u : UnitItem) : ShelfState :=
  let len := jsOrInt u.item.length 30
  let wid := jsOrInt u.item.width 30
  let hgt := jsOrInt u.item.height 30
  let s1 := if (truck.width : ℚ) < st.x + (len : ℚ) then
    { st with x := 0, y := st.y + st.rowWidth, rowWidth := 0 } else st
  let s2 := if endY < s1.y + (wid : ℚ) then
    { s1 with x := 0, y := startY, z := s1.z + s1.layerHeight, layerHeight := 0, rowWidth := 0 }
    else s1
  if (truck.height : ℚ) < s2.z + (hgt : ℚ) then s2
  else
    { s2 with
      plan := s2.plan ++
        [{ orderItemId := u.item.id, orderId := u.orderId, name := u.item.name,
           x := s2.x, y := s2.y, z := s2.z, rotatedLength := len, rotatedWidth := wid,
           height := hgt, weight := jsOrInt u.item.weight 5, rotation := 0,
           placement := secName }],
      x := s2.x + (len : ℚ),
      layerHeight := max s2.layerHeight (hgt : ℚ),
      rowWidth := max s2.rowWidth (wid : ℚ) }

/-- Pack one section: sort its units by descending weight, then run the
shelf loop from the section's start. -/
def packSection (truck : TruckData) (startY endY : ℚ) (secName : Placement)
    (items : List UnitItem) : List LoadPlanItem :=
  let sorted := @List.insertionSort UnitItem (fun a b => b.item.weight ≤ a.item.weight)
    (fun a b => Int.decLe b.item.weight a.item.weight) items
  (sorted.foldl (shelfStep truck startY endY secName)
    { x := 0, y := startY, z := 0, layerHeight := 0, rowWidth := 0, plan := [] }).plan

/-- `generateLoadPlan`: expand and sort the units, split them over the
back / middle / front thirds of the truck depth, and shelf-pack each
section within its y-band. -/
def generateLoadPlan (trip : TruckTrip) (route : List RouteStop) (truck : TruckData) :
    List LoadPlanItem :=
  let allItems := sortUnitsBySeqDesc (expandUnits trip route)
  let secs := sectionsSplit allItems
  let sectionDepth : ℚ := (truck.depth : ℚ) / 3
  packSection truck 0 sectionDepth Placement.back secs.1
    ++ packSection truck sectionDepth (sectionDepth * 2) Placement.middle secs.2.1
    ++ packSection truck (sectionDepth * 2) (truck.depth : ℚ) Placement.front secs.2.2

/-! ### Single-trip planner (`assignOrdersToTrucks`, `src/unnamed/part_001`) -/

/-- An order as consumed by the single-trip planner (`OrderData` of
`part_001`; its `zone` is nullable). -/
structure OrderDataA where
  id : ℤ
  orderNumber : String
  zipcode : String
  zone : Option String
  latitude : Option ℚ
  longitude : Option ℚ
  helpersRequired : HelpersRequired
  totalWeight : ℤ
  totalVolume : ℤ
  items : List ItemData
  deriving DecidableEq

/-- One truck's assignment (`TruckAssignment`); the `route` and
`loadPlan` fields are filled by later stages and stay empty during
`assignOrdersToTrucks`, so they are not modelled. -/
structure TruckAssignment where
  truck : TruckData
  orders : List OrderDataA
  totalWeight : ℤ
  totalVolume : ℤ
  helpersNeeded : ℕ
  deriving DecidableEq

/-- Mutable state of the assignment loops: built assignments, the pool
of unused trucks, and the remaining helper budget. -/
structure AssignState where
  assignments : List TruckAssignment
  availableTrucks : List TruckData
  remainingHelpers : ℤ
  deriving DecidableEq

/-- The scan over existing assignments: the first same-zone assignment
whose truck still has volume and weight capacity for the order. -/
def findJoinIndex (assignments : List TruckAssignment) (o : OrderDataA) : Option ℕ :=
  (List.range assignments.length).find? (fun i =>
    match assignments.get? i with
    | Option.none => false
    | Option.some a =>
      a.orders.any (fun oo => oo.zone == o.zone) &&
      decide (a.totalWeight + o.totalWeight ≤ a.truck.maxWeight) &&
      decide (a.totalVolume + o.totalVolume ≤ a.truck.volume))

/-- The scan over the unused-truck pool: the first truck that can hold
the order whole. -/
def findTruckFor (avail : List TruckData) (o : OrderDataA) : Option TruckData :=
  avail.find? (fun t => decide (o.totalWeight ≤ t.maxWeight) && decide (o.totalVolume ≤ t.volume))

/-- Join an existing assignment: push the order, add its totals, and
raise the assignment's helper need to the maximum. -/
def joinAssignment (a : TruckAssignment) (o : OrderDataA) : TruckAssignment :=
  { a with
    orders := a.orders ++ [o],
    totalWeight := a.totalWeight + o.totalWeight,
    totalVolume := a.totalVolume + o.totalVolume,
    helpersNeeded := max a.helpersNeeded (helperCount o.helpersRequired) }

/-- The body of the order loop: skip the order when its helper need
exceeds the remaining budget (unless it needs none); otherwise join the
first fitting same-zone assignment (no budget change), or open a new
truck (removing it from the pool and deducting the helper need), or
leave the order unassigned. -/
def processOrderA (st : AssignState) (o : OrderDataA) : AssignState :=
  let needed : ℤ := helperCount o.helpersRequired
  if st.remainingHelpers < needed ∧ o.helpersRequired ≠ HelpersRequired.none then st
  else
    match findJoinIndex st.assignments o with
    | Option.some i => { st with assignments := modifyAt st.assignments i (fun a => joinAssignment a o) }
    | Option.none =>
      match findTruckFor st.availableTrucks o with
      | Option.some truck =>
        { assignments := st.assignments ++
            [{ truck := truck, orders := [o], totalWeight := o.totalWeight,
               totalVolume := o.totalVolume, helpersNeeded := helperCount o.helpersRequired }],
          availableTrucks :=
            match st.availableTrucks.findIdx? (fun t => t.id == truck.id) with
            | Option.some j => st.availableTrucks.eraseIdx j
            | Option.none => st.availableTrucks,
          remainingHelpers := st.remainingHelpers - needed }
      | Option.none => st

/-- Group the planner's orders by zone (`order.zone || "Central"`). -/
def ordersByZoneA (orders : List OrderDataA) : ZRecord (List OrderDataA) :=
  orders.foldl (fun rec o => recPush rec (jsOrStr o.zone "Central") o) []

/-- The zone visiting order of the single-trip planner: the five fixed
zones sorted ascending by Haversine distance from the Tuas depot. The
source computes this from the floating-point `DEPOT`/`ZONES` coordinate
constants; the resulting order is this fixed list. -/
def zoneDistanceOrder : List String := ["West", "North", "South", "Central", "East"]

/-- `assignOrdersToTrucks` (parametric in the zone visiting sequence):
sort the trucks descending by volume, bucket the orders by zone, then
process each zone's orders in descending-weight order through
`processOrderA`. The final state also exposes the remaining helper
budget, the function's local accumulator. -/
def assignOrdersToTrucks (zoneSeq : List String) (orders : List OrderDataA)
    (trucks : List TruckData) (availableHelpers : ℤ) : AssignState :=
  let avail := @List.insertionSort TruckData (fun a b => b.volume ≤ a.volume)
    (fun a b => Int.decLe b.volume a.volume) trucks
  let byZone := ordersByZoneA orders
  zoneSeq.foldl
    (fun st z =>
      let zOrders := @List.insertionSort OrderDataA (fun a b => b.totalWeight ≤ a.totalWeight)
        (fun a b => Int.decLe b.totalWeight a.totalWeight) (recGetD byZone z [])
      zOrders.foldl processOrderA st)
    { assignments := [], availableTrucks := avail, remainingHelpers := availableHelpers }

/-! ### Generic fold lemmas -/

theorem foldl_preserve {α β : Type} {P : β → Prop} {s : β → α → β}
    (h : ∀ st a, P st → P (s st a)) :
    ∀ (l : List α) (st : β), P st → P (l.foldl s st)
  | [], _, hst => hst
  | a :: l, st, hst => foldl_preserve h l (s st a) (h st a hst)

theorem foldl_perm_collect {α β γ : Type} {s : β → α → β} {f : β → List γ} {g : α → γ}
    {Q : β → Prop}
    (hq : ∀ st a, Q st → Q (s st a))
    (h : ∀ st a, Q st → (f (s st a)).Perm (g a :: f st)) :
    ∀ (l : List α) (st : β), Q st → (f (l.foldl s st)).Perm (l.map g ++ f st) := by
  intro l
  induction l with
  | nil => intro st hst; simp
  | cons a l ih =>
    intro st hst
    have h1 := ih (s st a) (hq st a hst)
    have h2 : (l.map g ++ f (s st a)).Perm (l.map g ++ (g a :: f st)) :=
      List.Perm.append (List.Perm.refl _) (h st a hst)
    have h3 : (l.map g ++ (g a :: f st)).Perm (g a :: (l.map g ++ f st)) := List.perm_middle
    simpa using h1.trans (h2.trans h3)

/-! ### Concrete fixtures used by witnesses and counterexamples -/

/-- Three identical 50cm cubes of weight 10 (the spec's weight test). -/
def c2Items : List Item :=
  [{ id := 1, orderItemId := 1, orderId := 1, name := "box", length := 50, width := 50,
     height := 50, weight := 10, volume := 125000 },
   { id := 2, orderItemId := 2, orderId := 1, name := "box", length := 50, width := 50,
     height := 50, weight := 10, volume := 125000 },
   { id := 3, orderItemId := 3, orderId := 1, name := "box", length := 50, width := 50,
     height := 50, weight := 10, volume := 125000 }]

/-- A truck bin with `maxWeight = 25`. -/
def c2Bin : Bin := { width := 200, depth := 400, height := 200, maxWeight := 25 }

/-- A 150cm-long item (the spec's dimension-rejection test). -/
def c3Item : Item :=
  { id := 1, orderItemId := 1, orderId := 1, name := "long", length := 150, width := 50,
    height := 50, weight := 10, volume := 375000 }

/-- The 100x100x100 container. -/
def c3Bin : Bin := { width := 100, depth := 100, height := 100, maxWeight := 1000 }

/-- One 100x100x50 item of weight 10 at the origin (the centroid test). -/
def c4Item : Item :=
  { id := 1, orderItemId := 1, orderId := 1, name := "slab", length := 100, width := 100,
    height := 50, weight := 10, volume := 500000 }

/-- A roomy container for the centroid test. -/
def c4Bin : Bin := { width := 200, depth := 200, height := 200, maxWeight := 1000 }

/-- A 10x10x10 truck with capacity 100 kg. -/
def t1 : TruckData :=
  { id := 1, name := "T1", width := 10, depth := 10, height := 10, maxWeight := 100,
    volume := 1000 }

/-- An order of volume 600 that fits `t1`. -/
def o1 : OrderData :=
  { id := 1, orderNumber := "A", zipcode := "600001", zone := "West", sector := "60",
    latitude := Option.none, longitude := Option.none,
    helpersRequired := HelpersRequired.none, totalWeight := 10, totalVolume := 600,
    maxLength := 5, maxWidth := 5, maxHeight := 5, needsTwoPeople := false, items := [] }

/-- An order of volume 500 whose 150cm max length fits no trip of `t1`. -/
def o2 : OrderData :=
  { id := 2, orderNumber := "B", zipcode := "600002", zone := "West", sector := "60",
    latitude := Option.none, longitude := Option.none,
    helpersRequired := HelpersRequired.none, totalWeight := 10, totalVolume := 500,
    maxLength := 150, maxWidth := 5, maxHeight := 5, needsTwoPeople := false, items := [] }

/-- A light order that explicitly requires two helpers, with
`needsTwoPeople` computed from its weight exactly as `autoOptimize`
does (`totalWeight > 50`). -/
def c7Order : OrderData :=
  { o1 with helpersRequired := HelpersRequired.two,
            needsTwoPeople := computedNeedsTwoPeople 10 }

/-- A one-stop trip in the West zone carrying `c7Order`. -/
def c7Trip : TruckTrip :=
  { tripId := 1, truckId := 1, maxVolume := 1000, maxWeight := 100, truckDims := [10, 10, 10],
    loadedOrders := [c7Order], currentVolume := 600, currentWeight := 10,
    assignedZones := ["West"] }

/-- A trip with no loaded orders. -/
def emptyTrip : TruckTrip := initialTrip t1

/-! ### C6: route timing -/

/-- The travel component of `getTripRouteTime` (depot leg, inter-zone
legs and the optional return leg), split out of the per-stop service
times. -/
def tripTravelTime (trip : TruckTrip) (includeReturn : Bool) : ℤ :=
  match optimizeZoneOrder trip.assignedZones with
  | [] => 0
  | z :: rest =>
    zoneTravelTimeD z + interZoneLegs (z :: rest)
      + (if includeReturn then zoneTravelTimeD ((z :: rest).getLast (List.cons_ne_nil z rest)) else 0)

/-- C6: a trip with zero loaded orders has route time 0, and a truck's
total route time is the sum of its trips' times (with return) plus the
fixed 30-minute depot reload time for every trip beyond the first —
exactly `tripCount - 1` reload intervals (natural subtraction). -/
theorem c6_route_timing :
    (∀ (trip : TruckTrip) (b : Bool), trip.loadedOrders = [] → getTripRouteTime trip b = 0) ∧
    (∀ trips : List TruckTrip,
      getTruckTotalRouteTime trips =
        (trips.map (fun t => getTripRouteTime t true)).sum
          + DEPOT_RELOAD_TIME * ((trips.length - 1 : ℕ) : ℤ)) := by
  constructor
  · intro trip b h
    simp [getTripRouteTime, h]
  · intro trips
    induction trips with
    | nil => simp [getTruckTotalRouteTime]
    | cons t rest ih =>
      cases rest with
      | nil => simp [getTruckTotalRouteTime]
      | cons t2 r2 =>
        rw [getTruckTotalRouteTime, ih]
        simp only [List.map_cons, List.sum_cons, List.length_cons, Nat.add_sub_cancel]
        push_cast
        ring

/-- C6 witness: both parts evaluated at concrete trips. -/
theorem c6_route_timing_witness :
    getTripRouteTime emptyTrip true = 0 ∧
    getTruckTotalRouteTime [c7Trip, emptyTrip] =
      (([c7Trip, emptyTrip]).map (fun t => getTripRouteTime t true)).sum
        + DEPOT_RELOAD_TIME * ((([c7Trip, emptyTrip]).length - 1 : ℕ) : ℤ) :=
  ⟨c6_route_timing.1 emptyTrip true rfl, c6_route_timing.2 [c7Trip, emptyTrip]⟩

/-! ### C7: per-stop service time -/

/-- Nonempty zone lists stay nonempty through `uniqueZones`. -/
theorem uniqueZones_ne_nil (z : String) (zs : List String) :
    uniqueZones (z :: zs) ≠ [] := by
  have key : ∀ (l : List String) (acc : List String), acc ≠ [] →
      l.foldl (fun acc z => if acc.contains z then acc else acc ++ [z]) acc ≠ [] := by
    intro l
    induction l with
    | nil => intro acc h; exact h
    | cons a l ih =>
      intro acc h
      rw [List.foldl_cons]
      by_cases hc : acc.contains a = true
      · rw [if_pos hc]; exact ih acc h
      · rw [if_neg hc]; exact ih (acc ++ [a]) (by simp)
  unfold uniqueZones
  rw [List.foldl_cons]
  refine key zs _ ?_
  simp

/-- Nonempty zone lists stay nonempty through `optimizeZoneOrder`. -/
theorem optimizeZoneOrder_ne_nil (z : String) (zs : List String) :
    optimizeZoneOrder (z :: zs) ≠ [] := by
  have hu := uniqueZones_ne_nil z zs
  simp only [optimizeZoneOrder]
  split
  · exact hu
  · intro h
    have hperm := @List.perm_insertionSort String
      (fun a b => zoneTravelTimeD a ≤ zoneTravelTimeD b)
      (fun a b => Int.decLe (zoneTravelTimeD a) (zoneTravelTimeD b)) (uniqueZones (z :: zs))
    rw [h] at hperm
    exact hu (hperm.nil_eq).symm

/-- C7 (amended): the service component of a trip's elapsed time is the
sum over its orders of 15 minutes when `needsTwoPeople` is set and 10
otherwise; `needsTwoPeople` is computed by the optimizer solely from
`totalWeight > 50`, so an explicit two-helper requirement never changes
the per-stop service time. -/
theorem c7_service_time :
    (∀ (trip : TruckTrip) (b : Bool), trip.loadedOrders ≠ [] → trip.assignedZones ≠ [] →
      getTripRouteTime trip b =
        tripTravelTime trip b +
          (trip.loadedOrders.map (fun o => if o.needsTwoPeople then 15 else 10)).sum) ∧
    (∀ o : OrderData, o.needsTwoPeople = computedNeedsTwoPeople o.totalWeight →
      (stopServiceTime o = 15 ↔ 50 < o.totalWeight)) ∧
    (∀ (o : OrderData) (h : HelpersRequired),
      stopServiceTime { o with helpersRequired := h } = stopServiceTime o) := by
  refine ⟨?_, ?_, ?_⟩
  · intro trip b hlo hz
    have hne : optimizeZoneOrder trip.assignedZones ≠ [] := by
      rcases haz : trip.assignedZones with _ | ⟨z, zs⟩
      · exact absurd haz hz
      · exact optimizeZoneOrder_ne_nil z zs
    unfold getTripRouteTime tripTravelTime
    rw [if_neg (by simpa [List.isEmpty_iff] using hlo)]
    rcases hzo : optimizeZoneOrder trip.assignedZones with _ | ⟨z1, rest⟩
    · exact absurd hzo hne
    simp only [hzo]
    have hs : stopServiceTime = fun o => if o.needsTwoPeople then 15 else 10 := rfl
    rw [hs]
    ring
  · intro o h
    by_cases h50 : (50 : ℤ) < o.totalWeight
    · simp [stopServiceTime, h, computedNeedsTwoPeople, h50]
    · simp [stopServiceTime, h, computedNeedsTwoPeople, h50]
  · intro o h
    simp [stopServiceTime]

/-- C7 witness: the decomposition and the weight rule at the concrete
one-stop trip. -/
theorem c7_service_time_witness :
    getTripRouteTime c7Trip true =
      tripTravelTime c7Trip true +
        ((c7Trip.loadedOrders).map (fun o => if o.needsTwoPeople then 15 else 10)).sum ∧
    (stopServiceTime c7Order = 15 ↔ 50 < c7Order.totalWeight) :=
  ⟨c7_service_time.1 c7Trip true (by decide) (by decide),
   c7_service_time.2.1 c7Order (by decide)⟩

/-- C7 counterexample: an order that explicitly requires two helpers but
weighs only 10 kg receives the 10-minute service time (its one-stop West
trip takes 15 + 10 + 15 = 40 minutes, not the 45 the claim implies). -/
theorem c7_counterexample :
    c7Order.helpersRequired = HelpersRequired.two ∧
    c7Order.totalWeight ≤ 50 ∧
    c7Order.needsTwoPeople = computedNeedsTwoPeople c7Order.totalWeight ∧
    stopServiceTime c7Order = 10 ∧
    getTripRouteTime c7Trip true = 40 ∧ ¬ getTripRouteTime c7Trip true = 45 := by
  refine ⟨rfl, by decide, by decide, by decide, by decide, by decide⟩

/-! ### C2: packing weight constraint -/

/-- Sum of the packed items' weights. -/
def packedWeight (l : List PackedItem) : ℤ := (l.map (fun p => p.item.weight)).sum

/-- Unfolding of a successful `tryRotation`. -/
theorem tryRotation_some {st : PackState} {it : Item} {rotVal len wid : ℤ} {st2 : PackState}
    (h : tryRotation st it rotVal len wid = Option.some st2) :
    ∃ i s, findBestSpace len wid it.height st.spaces = Option.some (i, s) ∧
      st2 = { st with
        packedItems := st.packedItems ++
          [{ item := it, x := s.x, y := s.y, z := s.z,
             rotation := rotVal, rotatedLength := len, rotatedWidth := wid }],
        spaces := st.spaces.eraseIdx i ++ newSpaces s len wid it.height,
        totalWeight := st.totalWeight + it.weight,
        totalVolume := st.totalVolume + it.volume } := by
  unfold tryRotation at h
  rcases hf : findBestSpace len wid it.height st.spaces with _ | p
  · rw [hf] at h
    exact absurd h (by simp)
  · rw [hf] at h
    simp only [Option.some.injEq] at h
    exact ⟨p.1, p.2, by simp [hf], h.symm⟩

/-- The running total weight always equals the packed items' weight sum. -/
theorem packOne_weight_eq (bin : Bin) (st : PackState) (it : Item)
    (h : st.totalWeight = packedWeight st.packedItems) :
    (packOne bin st it).totalWeight = packedWeight (packOne bin st it).packedItems := by
  unfold packOne
  split
  · simpa [packedWeight] using h
  · rcases h0 : tryRotation st it 0 it.length it.width with _ | st2
    · rcases h90 : tryRotation st it 90 it.width it.length with _ | st2
      · simpa [packedWeight] using h
      · obtain ⟨i, s, hf, hst⟩ := tryRotation_some h90
        subst hst
        simp [packedWeight, h]
    · obtain ⟨i, s, hf, hst⟩ := tryRotation_some h0
      subst hst
      simp [packedWeight, h]

/-- The running total weight never exceeds the bin's weight capacity. -/
theorem packOne_weight_le (bin : Bin) (st : PackState) (it : Item)
    (h : st.totalWeight ≤ bin.maxWeight) :
    (packOne bin st it).totalWeight ≤ bin.maxWeight := by
  unfold packOne
  split
  case isTrue => exact h
  case isFalse hw =>
    have hle : st.totalWeight + it.weight ≤ bin.maxWeight := le_of_not_lt hw
    rcases h0 : tryRotation st it 0 it.length it.width with _ | st2
    · rcases h90 : tryRotation st it 90 it.width it.length with _ | st2
      · exact h
      · obtain ⟨i, s, hf, hst⟩ := tryRotation_some h90
        subst hst
        exact hle
    · obtain ⟨i, s, hf, hst⟩ := tryRotation_some h0
      subst hst
      exact hle

/-- Invariant at the end of the packing loop: total weight equals the
packed weight sum. -/
theorem packRun_weight_eq (items : List Item) (bin : Bin) :
    (packRun items bin).totalWeight = packedWeight (packRun items bin).packedItems :=
  foldl_preserve (P := fun st => st.totalWeight = packedWeight st.packedItems)
    (fun st a hh => packOne_weight_eq bin st a hh) (sortByVolumeDesc items) (initPackState bin)
    (by simp [initPackState, packedWeight])

/-- Invariant at the end of the packing loop: the weight bound. -/
theorem packRun_weight_le (items : List Item) (bin : Bin) (h : 0 ≤ bin.maxWeight) :
    (packRun items bin).totalWeight ≤ bin.maxWeight :=
  foldl_preserve (P := fun st => st.totalWeight ≤ bin.maxWeight)
    (fun st a hh => packOne_weight_le bin st a hh) (sortByVolumeDesc items) (initPackState bin) h

/-- C2: for every item list and bin with nonnegative weight capacity,
the packed items' weights sum to at most the capacity; an item whose
weight would overflow the running total is sent straight to
`unpackedItems` with the packing state otherwise untouched (no geometric
placement attempted); and on the spec's example (capacity 25, three items
of weight 10) exactly 2 items pack, 1 stays unpacked, and the packed
weight is at most 25. -/
theorem c2_weight_constraint (items : List Item) (bin : Bin) (hmw : 0 ≤ bin.maxWeight) :
    packedWeight (packItems items bin).packedItems ≤ bin.maxWeight ∧
    (∀ (st : PackState) (it : Item), bin.maxWeight < st.totalWeight + it.weight →
      packOne bin st it = { st with unpackedItems := st.unpackedItems ++ [it] }) ∧
    ((packItems c2Items c2Bin).packedItems.length = 2 ∧
     (packItems c2Items c2Bin).unpackedItems.length = 1 ∧
     (packItems c2Items c2Bin).totalWeight ≤ 25) := by
  refine ⟨?_, ?_, by decide, by decide, by decide⟩
  · have h1 : (packItems items bin).packedItems = (packRun items bin).packedItems := rfl
    rw [h1, ← packRun_weight_eq]
    exact packRun_weight_le items bin hmw
  · intro st it h
    unfold packOne
    rw [if_pos h]

/-- C2 witness at the concrete 25-kg example. -/
theorem c2_weight_constraint_witness :
    (0 : ℤ) ≤ c2Bin.maxWeight ∧
    packedWeight (packItems c2Items c2Bin).packedItems ≤ c2Bin.maxWeight :=
  ⟨by decide, (c2_weight_constraint c2Items c2Bin (by decide)).1⟩

/-! ### C3: packing heuristic -/

/-- The spec's ranking of free boxes by the tuple (z, then y, then x). -/
def lexLeSpace (s t : FreeSpace) : Prop :=
  s.z < t.z ∨ (s.z = t.z ∧ (s.y < t.y ∨ (s.y = t.y ∧ s.x ≤ t.x)))

theorem lexLeSpace_refl (s : FreeSpace) : lexLeSpace s s := by
  unfold lexLeSpace
  omega

theorem lexLeSpace_trans {a b c : FreeSpace} (h1 : lexLeSpace a b) (h2 : lexLeSpace b c) :
    lexLeSpace a c := by
  unfold lexLeSpace at *
  omega

theorem not_spaceBetter_iff {s t : FreeSpace} : ¬ spaceBetter t s = true ↔ lexLeSpace s t := by
  simp only [spaceBetter, lexLeSpace, Bool.or_eq_true, Bool.and_eq_true, decide_eq_true_eq]
  omega

theorem spaceBetter_lexLe {s t : FreeSpace} (h : spaceBetter s t = true) : lexLeSpace s t := by
  simp only [spaceBetter, Bool.or_eq_true, Bool.and_eq_true, decide_eq_true_eq] at h
  unfold lexLeSpace
  omega

/-- The body of the space-selection loop, named for the proofs. -/
def fbStep (len wid hgt : ℤ) (best : Option (ℕ × FreeSpace)) (p : ℕ × FreeSpace) :
    Option (ℕ × FreeSpace) :=
  if spaceFits len wid hgt p.2 then
    match best with
    | Option.none => Option.some p
    | Option.some q => if spaceBetter p.2 q.2 then Option.some p else best
  else best

theorem findBestSpace_eq_fold (len wid hgt : ℤ) (spaces : List FreeSpace) :
    findBestSpace len wid hgt spaces = spaces.enum.foldl (fbStep len wid hgt) Option.none := rfl

/-- A `none` result of the selection fold means nothing fits. -/
theorem fbFold_none (len wid hgt : ℤ) :
    ∀ (l : List (ℕ × FreeSpace)) (acc : Option (ℕ × FreeSpace)),
      l.foldl (fbStep len wid hgt) acc = Option.none →
      acc = Option.none ∧ ∀ p ∈ l, spaceFits len wid hgt p.2 = false := by
  intro l
  induction l with
  | nil =>
    intro acc h
    exact ⟨h, by simp⟩
  | cons p l ih =>
    intro acc h
    rw [List.foldl_cons] at h
    obtain ⟨h1, h2⟩ := ih _ h
    have hfp : spaceFits len wid hgt p.2 = false := by
      by_cases hf : spaceFits len wid hgt p.2 = true
      · exfalso
        unfold fbStep at h1
        rw [if_pos hf] at h1
        rcases acc with _ | q
        · exact absurd h1 (by simp)
        · by_cases hb : spaceBetter p.2 q.2 = true <;> simp [hb] at h1
      · simpa using hf
    have hacc : acc = Option.none := by
      unfold fbStep at h1
      rw [if_neg (by simp [hfp])] at h1
      exact h1
    refine ⟨hacc, ?_⟩
    intro q hq
    rcases List.mem_cons.mp hq with rfl | hq
    · exact hfp
    · exact h2 q hq

/-- A `some` result of the selection fold is a fitting entry that ranks
lowest (by z, then y, then x) among the accumulator and every fitting
entry scanned. -/
theorem fbFold_some (len wid hgt : ℤ) :
    ∀ (l : List (ℕ × FreeSpace)) (acc : Option (ℕ × FreeSpace)) (q : ℕ × FreeSpace),
      l.foldl (fbStep len wid hgt) acc = Option.some q →
      (acc = Option.some q ∨ (q ∈ l ∧ spaceFits len wid hgt q.2 = true)) ∧
      (∀ q0, acc = Option.some q0 → lexLeSpace q.2 q0.2) ∧
      (∀ p ∈ l, spaceFits len wid hgt p.2 = true → lexLeSpace q.2 p.2) := by
  intro l
  induction l with
  | nil =>
    intro acc q h
    simp only [List.foldl_nil] at h
    refine ⟨Or.inl h, ?_, by simp⟩
    intro q0 h0
    rw [h] at h0
    obtain rfl : q = q0 := by simpa using h0
    exact lexLeSpace_refl _
  | cons p l ih =>
    intro acc q h
    rw [List.foldl_cons] at h
    obtain ⟨hmem, hq0, hmin⟩ := ih (fbStep len wid hgt acc p) q h
    by_cases hf : spaceFits len wid hgt p.2 = true
    · rcases acc with _ | q0
      · have hstep : fbStep len wid hgt Option.none p = Option.some p := by
          simp [fbStep, hf]
        rw [hstep] at hmem hq0
        have hqp : lexLeSpace q.2 p.2 := hq0 p rfl
        refine ⟨?_, by simp, ?_⟩
        · rcases hmem with hmem | hmem
          · obtain rfl : p = q := by simpa using hmem
            exact Or.inr ⟨List.mem_cons_self _ _, hf⟩
          · exact Or.inr ⟨List.mem_cons_of_mem _ hmem.1, hmem.2⟩
        · intro pp hpp hfits
          rcases List.mem_cons.mp hpp with rfl | hpp
          · exact hqp
          · exact hmin pp hpp hfits
      · by_cases hb : spaceBetter p.2 q0.2 = true
        · have hstep : fbStep len wid hgt (Option.some q0) p = Option.some p := by
            simp [fbStep, hf, hb]
          rw [hstep] at hmem hq0
          have hqp : lexLeSpace q.2 p.2 := hq0 p rfl
          refine ⟨?_, ?_, ?_⟩
          · rcases hmem with hmem | hmem
            · obtain rfl : p = q := by simpa using hmem
              exact Or.inr ⟨List.mem_cons_self _ _, hf⟩
            · exact Or.inr ⟨List.mem_cons_of_mem _ hmem.1, hmem.2⟩
          · intro q1 h1
            obtain rfl : q0 = q1 := by simpa using h1
            exact lexLeSpace_trans hqp (spaceBetter_lexLe hb)
          · intro pp hpp hfits
            rcases List.mem_cons.mp hpp with rfl | hpp
            · exact hqp
            · exact hmin pp hpp hfits
        · have hstep : fbStep len wid hgt (Option.some q0) p = Option.some q0 := by
            simp [fbStep, hf, hb]
          rw [hstep] at hmem hq0
          have hqq0 : lexLeSpace q.2 q0.2 := hq0 q0 rfl
          refine ⟨?_, ?_, ?_⟩
          · rcases hmem with hmem | hmem
            · exact Or.inl hmem
            · exact Or.inr ⟨List.mem_cons_of_mem _ hmem.1, hmem.2⟩
          · intro q1 h1
            obtain rfl : q0 = q1 := by simpa using h1
            exact hqq0
          · intro pp hpp hfits
            rcases List.mem_cons.mp hpp with rfl | hpp
            · exact lexLeSpace_trans hqq0 (not_spaceBetter_iff.mp hb)
            · exact hmin pp hpp hfits
    · have hstep : fbStep len wid hgt acc p = acc := by
        unfold fbStep
        rw [if_neg hf]
      rw [hstep] at hmem hq0
      refine ⟨?_, hq0, ?_⟩
      · rcases hmem with hmem | hmem
        · exact Or.inl hmem
        · exact Or.inr ⟨List.mem_cons_of_mem _ hmem.1, hmem.2⟩
      · intro pp hpp hfits
        rcases List.mem_cons.mp hpp with rfl | hpp
        · exact absurd hfits hf
        · exact hmin pp hpp hfits

/-- Specification of a successful `findBestSpace`: the returned index
holds the returned space, it fits, and it is lexicographically minimal
(z, then y, then x) among all fitting spaces. -/
theorem findBestSpace_some {len wid hgt : ℤ} {spaces : List FreeSpace} {i : ℕ} {s : FreeSpace}
    (h : findBestSpace len wid hgt spaces = Option.some (i, s)) :
    spaces.get? i = Option.some s ∧ spaceFits len wid hgt s = true ∧
    ∀ t ∈ spaces, spaceFits len wid hgt t = true → lexLeSpace s t := by
  rw [findBestSpace_eq_fold] at h
  obtain ⟨hmem, _, hmin⟩ := fbFold_some len wid hgt spaces.enum Option.none (i, s) h
  rcases hmem with hmem | ⟨hmem, hfits⟩
  · exact absurd hmem (by simp)
  · refine ⟨?_, hfits, ?_⟩
    · exact List.mem_enum_iff_get?.mp hmem
    · intro t ht hfit
      obtain ⟨n, hn⟩ := List.mem_iff_get?.mp ht
      exact hmin (n, t) (List.mem_enum_iff_get?.mpr hn) hfit

/-- Specification of a failed `findBestSpace`: no space fits. -/
theorem findBestSpace_none {len wid hgt : ℤ} {spaces : List FreeSpace}
    (h : findBestSpace len wid hgt spaces = Option.none) :
    ∀ t ∈ spaces, spaceFits len wid hgt t = false := by
  rw [findBestSpace_eq_fold] at h
  obtain ⟨_, h2⟩ := fbFold_none len wid hgt spaces.enum Option.none h
  intro t ht
  obtain ⟨n, hn⟩ := List.mem_iff_get?.mp ht
  exact h2 (n, t) (List.mem_enum_iff_get?.mpr hn)

/-- Membership characterization of the emitted remainder boxes. -/
theorem mem_newSpaces {s : FreeSpace} {len wid hgt : ℤ} {b : FreeSpace} :
    b ∈ newSpaces s len wid hgt ↔
      (0 < s.w - len ∧
        b = { x := s.x + len, y := s.y, z := s.z, w := s.w - len, d := s.d, h := s.h }) ∨
      (0 < s.d - wid ∧
        b = { x := s.x, y := s.y + wid, z := s.z, w := len, d := s.d - wid, h := s.h }) ∨
      (0 < s.h - hgt ∧
        b = { x := s.x, y := s.y, z := s.z + hgt, w := len, d := wid, h := s.h - hgt }) := by
  unfold newSpaces
  by_cases h1 : 0 < s.w - len <;> by_cases h2 : 0 < s.d - wid <;>
    by_cases h3 : 0 < s.h - hgt <;> simp [h1, h2, h3]

/-- C3: `packItems` processes items in stable descending-volume order
(First-Fit-Decreasing); each successful rotation attempt places the item
at the fitting free box minimal by (z, then y, then x), removes that box
and appends the +x / +y / +z remainders exactly when their remaining
dimension is strictly positive; rotation 0 is tried before rotation 90
and an item fitting neither is returned unpacked; and a 150cm item is
unpacked from the 100x100x100 container with packed count 0. -/
theorem c3_ffd_bottom_left_back :
    (∀ items : List Item,
      (sortByVolumeDesc items).Perm items ∧
      (sortByVolumeDesc items).Sorted (fun a b => b.volume ≤ a.volume)) ∧
    (∀ (len wid hgt : ℤ) (spaces : List FreeSpace) (i : ℕ) (s : FreeSpace),
      findBestSpace len wid hgt spaces = Option.some (i, s) →
        spaces.get? i = Option.some s ∧ spaceFits len wid hgt s = true ∧
        ∀ t ∈ spaces, spaceFits len wid hgt t = true → lexLeSpace s t) ∧
    (∀ (len wid hgt : ℤ) (spaces : List FreeSpace),
      findBestSpace len wid hgt spaces = Option.none →
        ∀ t ∈ spaces, spaceFits len wid hgt t = false) ∧
    (∀ (st : PackState) (it : Item) (rotVal len wid : ℤ) (st2 : PackState),
      tryRotation st it rotVal len wid = Option.some st2 →
        ∃ i s, findBestSpace len wid it.height st.spaces = Option.some (i, s) ∧
          st2.spaces = st.spaces.eraseIdx i ++ newSpaces s len wid it.height ∧
          st2.packedItems = st.packedItems ++
            [{ item := it, x := s.x, y := s.y, z := s.z, rotation := rotVal,
               rotatedLength := len, rotatedWidth := wid }]) ∧
    (∀ (s : FreeSpace) (len wid hgt : ℤ) (b : FreeSpace),
      b ∈ newSpaces s len wid hgt ↔
        (0 < s.w - len ∧
          b = { x := s.x + len, y := s.y, z := s.z, w := s.w - len, d := s.d, h := s.h }) ∨
        (0 < s.d - wid ∧
          b = { x := s.x, y := s.y + wid, z := s.z, w := len, d := s.d - wid, h := s.h }) ∨
        (0 < s.h - hgt ∧
          b = { x := s.x, y := s.y, z := s.z + hgt, w := len, d := wid, h := s.h - hgt })) ∧
    (∀ (bin : Bin) (st : PackState) (it : Item) (st2 : PackState),
      ¬ bin.maxWeight < st.totalWeight + it.weight →
      tryRotation st it 0 it.length it.width = Option.some st2 →
      packOne bin st it = st2) ∧
    (∀ (bin : Bin) (st : PackState) (it : Item) (st2 : PackState),
      ¬ bin.maxWeight < st.totalWeight + it.weight →
      tryRotation st it 0 it.length it.width = Option.none →
      tryRotation st it 90 it.width it.length = Option.some st2 →
      packOne bin st it = st2) ∧
    (∀ (bin : Bin) (st : PackState) (it : Item),
      ¬ bin.maxWeight < st.totalWeight + it.weight →
      tryRotation st it 0 it.length it.width = Option.none →
      tryRotation st it 90 it.width it.length = Option.none →
      packOne bin st it = { st with unpackedItems := st.unpackedItems ++ [it] }) ∧
    ((packItems [c3Item] c3Bin).packedItems.length = 0 ∧
     (packItems [c3Item] c3Bin).unpackedItems = [c3Item]) := by
  refine ⟨?_, ?_, ?_, ?_, ?_, ?_, ?_, ?_, by decide, by decide⟩
  · intro items
    constructor
    · exact List.perm_insertionSort _ items
    · exact @List.sorted_insertionSort Item (fun a b => b.volume ≤ a.volume)
        (fun a b => Int.decLe b.volume a.volume)
        ⟨fun a b => (le_total b.volume a.volume)⟩
        ⟨fun a b c h1 h2 => le_trans h2 h1⟩ items
  · intro len wid hgt spaces i s h
    exact findBestSpace_some h
  · intro len wid hgt spaces h
    exact findBestSpace_none h
  · intro st it rotVal len wid st2 h
    obtain ⟨i, s, hf, hst⟩ := tryRotation_some h
    subst hst
    exact ⟨i, s, hf, rfl, rfl⟩
  · intro s len wid hgt b
    exact mem_newSpaces
  · intro bin st it st2 hw h0
    unfold packOne
    rw [if_neg hw, h0]
  · intro bin st it st2 hw h0 h90
    unfold packOne
    rw [if_neg hw, h0, h90]
  · intro bin st it hw h0 h90
    unfold packOne
    rw [if_neg hw, h0, h90]

/-- C3 witness: the FFD order, the no-fit specification and the
rotation fallback evaluated at the concrete 150cm example. -/
theorem c3_ffd_bottom_left_back_witness :
    (sortByVolumeDesc [c3Item]).Perm [c3Item] ∧
    (∀ t ∈ (initPackState c3Bin).spaces, spaceFits 150 50 50 t = false) ∧
    packOne c3Bin (initPackState c3Bin) c3Item =
      { initPackState c3Bin with
        unpackedItems := (initPackState c3Bin).unpackedItems ++ [c3Item] } :=
  ⟨(c3_ffd_bottom_left_back.1 [c3Item]).1,
   c3_ffd_bottom_left_back.2.2.1 150 50 50 (initPackState c3Bin).spaces (by decide),
   c3_ffd_bottom_left_back.2.2.2.2.2.2.2.1 c3Bin (initPackState c3Bin) c3Item
     (by decide) (by decide) (by decide)⟩

/-! ### C4: center of gravity and balance -/

/-- The items of a packing state, packed then unpacked. -/
def packParts (st : PackState) : List Item :=
  st.packedItems.map (fun p => p.item) ++ st.unpackedItems

/-- Each packing step moves exactly the processed item into the state. -/
theorem packOne_parts (bin : Bin) (st : PackState) (it : Item) :
    (packParts (packOne bin st it)).Perm (it :: packParts st) := by
  unfold packOne
  split
  · simp only [packParts]
    rw [← List.append_assoc]
    exact List.perm_append_singleton _ _
  · rcases h0 : tryRotation st it 0 it.length it.width with _ | st2
    · rcases h90 : tryRotation st it 90 it.width it.length with _ | st2
      · simp only [packParts]
        rw [← List.append_assoc]
        exact List.perm_append_singleton _ _
      · obtain ⟨i, s, hf, hst⟩ := tryRotation_some h90
        subst hst
        simp only [packParts, List.map_append, List.map_cons, List.map_nil]
        rw [List.append_assoc]
        exact List.perm_middle
    · obtain ⟨i, s, hf, hst⟩ := tryRotation_some h0
      subst hst
      simp only [packParts, List.map_append, List.map_cons, List.map_nil]
      rw [List.append_assoc]
      exact List.perm_middle

/-- The packing loop partitions its input: packed plus unpacked items
form a permutation of the processed items. -/
theorem packRun_parts (items : List Item) (bin : Bin) :
    (packParts (packRun items bin)).Perm items := by
  have h := foldl_perm_collect (s := packOne bin) (f := packParts) (g := id)
    (Q := fun _ => True) (fun _ _ _ => trivial)
    (fun st a _ => packOne_parts bin st a) (sortByVolumeDesc items) (initPackState bin) trivial
  have h2 : packParts (initPackState bin) = [] := rfl
  rw [h2, List.append_nil, List.map_id] at h
  exact h.trans (List.perm_insertionSort _ items)

/-- Closed form of the center-of-gravity accumulators. -/
theorem cogSums_eq (l : List PackedItem) :
    cogSums l =
      ((l.map (fun p => ((p.x : ℚ) + (p.rotatedLength : ℚ) / 2) * (p.item.weight : ℚ))).sum,
       (l.map (fun p => ((p.y : ℚ) + (p.rotatedWidth : ℚ) / 2) * (p.item.weight : ℚ))).sum,
       (l.map (fun p => ((p.z : ℚ) + (p.item.height : ℚ) / 2) * (p.item.weight : ℚ))).sum) := by
  have key : ∀ (l : List PackedItem) (acc : ℚ × ℚ × ℚ),
      l.foldl
        (fun acc p =>
          (acc.1 + ((p.x : ℚ) + (p.rotatedLength : ℚ) / 2) * (p.item.weight : ℚ),
           acc.2.1 + ((p.y : ℚ) + (p.rotatedWidth : ℚ) / 2) * (p.item.weight : ℚ),
           acc.2.2 + ((p.z : ℚ) + (p.item.height : ℚ) / 2) * (p.item.weight : ℚ))) acc =
      (acc.1 + (l.map (fun p => ((p.x : ℚ) + (p.rotatedLength : ℚ) / 2) * (p.item.weight : ℚ))).sum,
       acc.2.1 + (l.map (fun p => ((p.y : ℚ) + (p.rotatedWidth : ℚ) / 2) * (p.item.weight : ℚ))).sum,
       acc.2.2 + (l.map (fun p => ((p.z : ℚ) + (p.item.height : ℚ) / 2) * (p.item.weight : ℚ))).sum) := by
    intro l
    induction l with
    | nil => intro acc; simp
    | cons p l ih =>
      intro acc
      rw [List.foldl_cons, ih]
      dsimp only
      simp only [List.map_cons, List.sum_cons, Prod.mk.injEq]
      refine ⟨by ring, by ring, by ring⟩
  have h := key l (0, 0, 0)
  unfold cogSums
  rw [h]
  simp

/-- C4: when the total packed weight is zero, the centroid is the
origin; otherwise it is the weight-weighted mean of the packed items'
geometric centers; `isBalanced` holds exactly when the centroid lies
within 30 percent of the container's center on x and y (z unchecked);
and one 100x100x50 item of weight 10 at the origin yields (50, 50, 25). -/
theorem c4_center_of_gravity (items : List Item) (bin : Bin)
    (hw : ∀ it ∈ items, 0 ≤ it.weight) :
    ((packItems items bin).totalWeight = 0 →
      (packItems items bin).centerOfGravity = (0, 0, 0)) ∧
    ((packItems items bin).totalWeight ≠ 0 →
      (packItems items bin).centerOfGravity =
        (((packItems items bin).packedItems.map
            (fun p => ((p.x : ℚ) + (p.rotatedLength : ℚ) / 2) * (p.item.weight : ℚ))).sum /
           ((packItems items bin).totalWeight : ℚ),
         ((packItems items bin).packedItems.map
            (fun p => ((p.y : ℚ) + (p.rotatedWidth : ℚ) / 2) * (p.item.weight : ℚ))).sum /
           ((packItems items bin).totalWeight : ℚ),
         ((packItems items bin).packedItems.map
            (fun p => ((p.z : ℚ) + (p.item.height : ℚ) / 2) * (p.item.weight : ℚ))).sum /
           ((packItems items bin).totalWeight : ℚ))) ∧
    ((packItems items bin).isBalanced = true ↔
      |(packItems items bin).centerOfGravity.1 - (bin.width : ℚ) / 2| ≤
          (bin.width : ℚ) * (3 / 10) ∧
      |(packItems items bin).centerOfGravity.2.1 - (bin.depth : ℚ) / 2| ≤
          (bin.depth : ℚ) * (3 / 10)) ∧
    (packItems [c4Item] c4Bin).centerOfGravity = (50, 50, 25) := by
  have htw0 : 0 ≤ (packRun items bin).totalWeight := by
    rw [packRun_weight_eq]
    unfold packedWeight
    refine List.sum_nonneg ?_
    intro w hwmem
    obtain ⟨p, hp, rfl⟩ := List.mem_map.mp hwmem
    refine hw p.item ?_
    refine (packRun_parts items bin).mem_iff.mp ?_
    unfold packParts
    exact List.mem_append_left _ (List.mem_map_of_mem _ hp)
  have hproj : (packItems items bin).totalWeight = (packRun items bin).totalWeight := rfl
  refine ⟨?_, ?_, ?_, ?_⟩
  · intro h0
    rw [hproj] at h0
    show (if 0 < (packRun items bin).totalWeight then _ else ((0 : ℚ), (0 : ℚ), (0 : ℚ))) = _
    rw [if_neg (by omega)]
  · intro hne
    rw [hproj] at hne
    have hpos : 0 < (packRun items bin).totalWeight := by omega
    show (if 0 < (packRun items bin).totalWeight then
        ((cogSums (packRun items bin).packedItems).1 / ((packRun items bin).totalWeight : ℚ),
         (cogSums (packRun items bin).packedItems).2.1 / ((packRun items bin).totalWeight : ℚ),
         (cogSums (packRun items bin).packedItems).2.2 / ((packRun items bin).totalWeight : ℚ))
      else ((0 : ℚ), (0 : ℚ), (0 : ℚ))) = _
    rw [if_pos hpos, cogSums_eq]
    rfl
  · simp only [packItems, Bool.and_eq_true, decide_eq_true_eq]
  · have hrun : packRun [c4Item] c4Bin =
        { packedItems :=
            [{ item := c4Item, x := 0, y := 0, z := 0, rotation := 0,
               rotatedLength := 100, rotatedWidth := 100 }],
          unpackedItems := [],
          spaces :=
            [{ x := 100, y := 0, z := 0, w := 100, d := 200, h := 200 },
             { x := 0, y := 100, z := 0, w := 100, d := 100, h := 200 },
             { x := 0, y := 0, z := 50, w := 100, d := 100, h := 150 }],
          totalWeight := 10, totalVolume := 500000 } := by decide
    show (if 0 < (packRun [c4Item] c4Bin).totalWeight then
        ((cogSums (packRun [c4Item] c4Bin).packedItems).1 / ((packRun [c4Item] c4Bin).totalWeight : ℚ),
         (cogSums (packRun [c4Item] c4Bin).packedItems).2.1 / ((packRun [c4Item] c4Bin).totalWeight : ℚ),
         (cogSums (packRun [c4Item] c4Bin).packedItems).2.2 / ((packRun [c4Item] c4Bin).totalWeight : ℚ))
      else ((0 : ℚ), (0 : ℚ), (0 : ℚ))) = ((50 : ℚ), (50 : ℚ), (25 : ℚ))
    rw [hrun]
    norm_num [cogSums, c4Item]

/-- C4 witness at the concrete one-item example. -/
theorem c4_center_of_gravity_witness :
    (∀ it ∈ [c4Item], (0 : ℤ) ≤ it.weight) ∧
    ((packItems [c4Item] c4Bin).totalWeight ≠ 0 →
      (packItems [c4Item] c4Bin).centerOfGravity =
        (((packItems [c4Item] c4Bin).packedItems.map
            (fun p => ((p.x : ℚ) + (p.rotatedLength : ℚ) / 2) * (p.item.weight : ℚ))).sum /
           ((packItems [c4Item] c4Bin).totalWeight : ℚ),
         ((packItems [c4Item] c4Bin).packedItems.map
            (fun p => ((p.y : ℚ) + (p.rotatedWidth : ℚ) / 2) * (p.item.weight : ℚ))).sum /
           ((packItems [c4Item] c4Bin).totalWeight : ℚ),
         ((packItems [c4Item] c4Bin).packedItems.map
            (fun p => ((p.z : ℚ) + (p.item.height : ℚ) / 2) * (p.item.weight : ℚ))).sum /
           ((packItems [c4Item] c4Bin).totalWeight : ℚ))) ∧
    (packItems [c4Item] c4Bin).centerOfGravity = (50, 50, 25) := by
  have h := c4_center_of_gravity [c4Item] c4Bin (by decide)
  exact ⟨by decide, h.2.1, h.2.2.2⟩

/-! ### C9: helper budget in the single-trip planner -/

/-- A large truck for the helper-budget counterexample. -/
def bigT : TruckData :=
  { id := 1, name := "Big", width := 100, depth := 100, height := 100, maxWeight := 10000,
    volume := 1000000 }

/-- A West-zone order needing no helper. -/
def oA : OrderDataA :=
  { id := 1, orderNumber := "A", zipcode := "1", zone := Option.some "West",
    latitude := Option.none, longitude := Option.none,
    helpersRequired := HelpersRequired.none, totalWeight := 30, totalVolume := 10, items := [] }

/-- A West-zone order needing one helper. -/
def oB : OrderDataA :=
  { oA with id := 2, orderNumber := "B", helpersRequired := HelpersRequired.one,
            totalWeight := 20 }

/-- Another West-zone order needing one helper. -/
def oC : OrderDataA :=
  { oA with id := 3, orderNumber := "C", helpersRequired := HelpersRequired.one,
            totalWeight := 10 }

/-- The planner run with a helper budget of 1. -/
def c9run : AssignState := assignOrdersToTrucks zoneDistanceOrder [oA, oB, oC] [bigT] 1

/-- C9 (amended): an order whose helper need exceeds the remaining
budget is skipped; an order that joins an existing assignment leaves the
budget unchanged (the budget is decremented only when an order opens a
new truck); the budget never increases and never goes negative, so the
headcount consumed by assignment-opening orders stays within
`availableHelpers` — but the total over all assigned helper-requiring
orders may exceed it. -/
theorem c9_helper_budget :
    (∀ (st : AssignState) (o : OrderDataA),
      st.remainingHelpers < (helperCount o.helpersRequired : ℤ) →
      o.helpersRequired ≠ HelpersRequired.none →
      processOrderA st o = st) ∧
    (∀ (st : AssignState) (o : OrderDataA) (i : ℕ),
      ¬ (st.remainingHelpers < (helperCount o.helpersRequired : ℤ) ∧
         o.helpersRequired ≠ HelpersRequired.none) →
      findJoinIndex st.assignments o = Option.some i →
      (processOrderA st o).remainingHelpers = st.remainingHelpers) ∧
    (∀ (st : AssignState) (o : OrderDataA),
      0 ≤ st.remainingHelpers →
      0 ≤ (processOrderA st o).remainingHelpers ∧
      (processOrderA st o).remainingHelpers ≤ st.remainingHelpers) ∧
    (∀ (zoneSeq : List String) (orders : List OrderDataA) (trucks : List TruckData)
        (availableHelpers : ℤ), 0 ≤ availableHelpers →
      0 ≤ (assignOrdersToTrucks zoneSeq orders trucks availableHelpers).remainingHelpers ∧
      (assignOrdersToTrucks zoneSeq orders trucks availableHelpers).remainingHelpers ≤
        availableHelpers) := by
  have hstep : ∀ (st : AssignState) (o : OrderDataA),
      0 ≤ st.remainingHelpers →
      0 ≤ (processOrderA st o).remainingHelpers ∧
      (processOrderA st o).remainingHelpers ≤ st.remainingHelpers := by
    intro st o h
    simp only [processOrderA]
    split
    · exact ⟨h, le_refl _⟩
    case isFalse hguard =>
      push_neg at hguard
      rcases hj : findJoinIndex st.assignments o with _ | i
      · rcases ht : findTruckFor st.availableTrucks o with _ | truck
        · simp only [hj, ht]
          exact ⟨h, le_refl _⟩
        · simp only [hj, ht]
          have hcount : (0 : ℤ) ≤ (helperCount o.helpersRequired : ℤ) := by positivity
          have hge : (helperCount o.helpersRequired : ℤ) ≤ st.remainingHelpers := by
            by_cases hn : o.helpersRequired = HelpersRequired.none
            · rw [hn]
              simpa [helperCount] using h
            · by_contra hlt
              push_neg at hlt
              exact hn (hguard hlt)
          refine ⟨?_, ?_⟩ <;> · dsimp only; omega
      · simp only [hj]
        exact ⟨h, le_refl _⟩
  refine ⟨?_, ?_, hstep, ?_⟩
  · intro st o h1 h2
    simp only [processOrderA]
    rw [if_pos ⟨h1, h2⟩]
  · intro st o i hguard hj
    simp only [processOrderA]
    rw [if_neg hguard]
    simp only [hj]
  · intro zoneSeq orders trucks availableHelpers h0
    refine foldl_preserve
      (P := fun st : AssignState =>
        0 ≤ st.remainingHelpers ∧ st.remainingHelpers ≤ availableHelpers) ?_ zoneSeq _ ⟨h0, le_refl _⟩
    intro st z hst
    refine foldl_preserve
      (P := fun st : AssignState =>
        0 ≤ st.remainingHelpers ∧ st.remainingHelpers ≤ availableHelpers) ?_ _ st hst
    intro st2 o hst2
    obtain ⟨ha, hb⟩ := hstep st2 o hst2.1
    exact ⟨ha, le_trans hb hst2.2⟩

/-- C9 witness: the budget bounds at the concrete run with one helper. -/
theorem c9_helper_budget_witness :
    0 ≤ c9run.remainingHelpers ∧ c9run.remainingHelpers ≤ 1 :=
  c9_helper_budget.2.2.2 zoneDistanceOrder [oA, oB, oC] [bigT] 1 (by decide)

/-- C9 counterexample: with one available helper, the planner assigns
all three orders (the two one-helper orders join the truck opened by the
no-helper order without consuming budget), so the assigned helper
headcount is 2 > 1 and the final budget is still 1 — refuting both the
per-order decrement and the global headcount bound of the claim. -/
theorem c9_counterexample :
    c9run.assignments.map (fun a => a.orders.map (fun o => o.id)) = [[1, 2, 3]] ∧
    (c9run.assignments.map
      (fun a => (a.orders.map (fun o => (helperCount o.helpersRequired : ℤ))).sum)).sum = 2 ∧
    ¬ (c9run.assignments.map
      (fun a => (a.orders.map (fun o => (helperCount o.helpersRequired : ℤ))).sum)).sum ≤ 1 ∧
    c9run.remainingHelpers = 1 := by
  refine ⟨by decide, by decide, by decide, by decide⟩

/-! ### C8: load-plan section assignment -/

/-- Closed form of the section-assignment loop, generalized over the
start index and the accumulated sections. -/
theorem sectionsSplit_go (k : ℕ) :
    ∀ (l : List UnitItem) (n : ℕ) (acc : List UnitItem × List UnitItem × List UnitItem),
      (List.enumFrom n l).foldl
        (fun acc p =>
          if p.1 < k then (acc.1 ++ [p.2], acc.2.1, acc.2.2)
          else if p.1 < k * 2 then (acc.1, acc.2.1 ++ [p.2], acc.2.2)
          else (acc.1, acc.2.1, acc.2.2 ++ [p.2])) acc =
      (acc.1 ++ l.take (k - n),
       acc.2.1 ++ (l.drop (k - n)).take (k * 2 - max n k),
       acc.2.2 ++ l.drop ((k - n) + (k * 2 - max n k))) := by
  intro l
  induction l with
  | nil =>
    intro n acc
    simp
  | cons u l ih =>
    intro n acc
    rw [List.enumFrom_cons, List.foldl_cons]
    by_cases h1 : n < k
    · rw [if_pos h1, ih (n + 1)]
      have e2 : max n k = k := by omega
      have e3 : max (n + 1) k = k := by omega
      simp only [e2, e3]
      have e1 : k - n = (k - (n + 1)) + 1 := by omega
      simp only [e1, List.take_succ_cons, List.drop_succ_cons]
      have e4 : (k - (n + 1)) + 1 + (k * 2 - k) = ((k - (n + 1)) + (k * 2 - k)) + 1 := by
        omega
      simp only [e4, List.drop_succ_cons]
      simp
    · rw [if_neg h1]
      by_cases h2 : n < k * 2
      · rw [if_pos h2, ih (n + 1)]
        have e1 : k - n = 0 := by omega
        have e2 : k - (n + 1) = 0 := by omega
        have e3 : max n k = n := by omega
        have e4 : max (n + 1) k = n + 1 := by omega
        simp only [e1, e2, e3, e4, List.drop_zero]
        have e5 : k * 2 - n = (k * 2 - (n + 1)) + 1 := by omega
        simp only [e5, List.take_succ_cons]
        have e6 : 0 + ((k * 2 - (n + 1)) + 1) = (0 + (k * 2 - (n + 1))) + 1 := by omega
        simp only [e6, List.drop_succ_cons]
        simp
      · rw [if_neg h2, ih (n + 1)]
        have e1 : k - n = 0 := by omega
        have e2 : k - (n + 1) = 0 := by omega
        have e3 : k * 2 - max n k = 0 := by omega
        have e4 : k * 2 - max (n + 1) k = 0 := by omega
        simp only [e1, e2, e3, e4]
        simp

/-- The section-assignment loop assigns the first `ceil(n/3)` sorted
units to the back section, the next `ceil(n/3)` to the middle, and the
remainder to the front. -/
theorem sectionsSplit_eq (units : List UnitItem) :
    sectionsSplit units =
      (units.take ((units.length + 2) / 3),
       (units.drop ((units.length + 2) / 3)).take ((units.length + 2) / 3),
       units.drop (((units.length + 2) / 3) * 2)) := by
  simp only [sectionsSplit]
  rw [show units.enum = List.enumFrom 0 units from rfl]
  rw [sectionsSplit_go ((units.length + 2) / 3) units 0 ([], [], [])]
  have e1 : (units.length + 2) / 3 - 0 = (units.length + 2) / 3 := by omega
  have e2 : (units.length + 2) / 3 * 2 - max 0 ((units.length + 2) / 3) =
      (units.length + 2) / 3 := by omega
  rw [e1, e2]
  have e3 : (units.length + 2) / 3 + (units.length + 2) / 3 = (units.length + 2) / 3 * 2 := by
    omega
  rw [e3]
  simp

/-- C8 (amended): `generateLoadPlan` sorts the expanded units by stable
descending stop sequence, splits the truck depth into three equal
y-bands, assigns the first `ceil(n/3)` units (latest deliveries) to the
back section, the next `ceil(n/3)` to the middle and the remainder to
the front, and shelf-packs each section within its band. The three
groups are equal thirds only when the unit count is divisible by 3. -/
theorem c8_section_assignment :
    (∀ units : List UnitItem,
      (sortUnitsBySeqDesc units).Perm units ∧
      (sortUnitsBySeqDesc units).Sorted (fun a b => b.sequence ≤ a.sequence)) ∧
    (∀ units : List UnitItem,
      sectionsSplit units =
        (units.take ((units.length + 2) / 3),
         (units.drop ((units.length + 2) / 3)).take ((units.length + 2) / 3),
         units.drop (((units.length + 2) / 3) * 2))) ∧
    (∀ (trip : TruckTrip) (route : List RouteStop) (truck : TruckData),
      generateLoadPlan trip route truck =
        packSection truck 0 ((truck.depth : ℚ) / 3) Placement.back
            (sectionsSplit (sortUnitsBySeqDesc (expandUnits trip route))).1 ++
          packSection truck ((truck.depth : ℚ) / 3) (((truck.depth : ℚ) / 3) * 2)
            Placement.middle
            (sectionsSplit (sortUnitsBySeqDesc (expandUnits trip route))).2.1 ++
          packSection truck (((truck.depth : ℚ) / 3) * 2) (truck.depth : ℚ) Placement.front
            (sectionsSplit (sortUnitsBySeqDesc (expandUnits trip route))).2.2) := by
  refine ⟨?_, sectionsSplit_eq, fun trip route truck => rfl⟩
  intro units
  constructor
  · exact List.perm_insertionSort _ units
  · exact @List.sorted_insertionSort UnitItem (fun a b => b.sequence ≤ a.sequence)
      (fun a b => Nat.decLe b.sequence a.sequence)
      ⟨fun a b => (le_total b.sequence a.sequence)⟩
      ⟨fun a b c h1 h2 => le_trans h2 h1⟩ units

/-- A single unit item for the counterexample trip. -/
def c8Item : ItemData :=
  { id := 7, orderId := 1, skuId := 1, quantity := 1, name := "u", length := 30, width := 30,
    height := 30, weight := 5 }

/-- The counterexample's only order, carrying the single unit. -/
def c8Order : OrderData := { o1 with items := [c8Item] }

/-- A trip whose only order is the first (and only) stop. -/
def c8Trip : TruckTrip :=
  { tripId := 1, truckId := 1, maxVolume := 100000000, maxWeight := 1000,
    truckDims := [300, 300, 300], loadedOrders := [c8Order], currentVolume := 27000,
    currentWeight := 5, assignedZones := ["West"] }

/-- The route stop of sequence 1 for that order. -/
def c8Stop : RouteStop :=
  { orderId := 1, orderNumber := "A", sequence := 1, zone := "West", zipcode := "600001",
    sector := "60", latitude := 0, longitude := 0, weightKg := 5, volumeM3 := 0,
    needsTwoPeople := false }

/-- A 300x300x300 truck for the counterexample. -/
def c8Truck : TruckData :=
  { id := 1, name := "T1", width := 300, depth := 300, height := 300, maxWeight := 1000,
    volume := 27000000 }

/-- C8 counterexample: with a single unit (which belongs to the first
stop's order), the three groups have sizes 1, 0 and 0 — not equal thirds
— and the unit is placed in the back section, not the front, refuting
both the equal-size split and the first-stop-to-front part of the claim. -/
theorem c8_counterexample :
    (sortUnitsBySeqDesc (expandUnits c8Trip [c8Stop])).length = 1 ∧
    (sectionsSplit (sortUnitsBySeqDesc (expandUnits c8Trip [c8Stop]))).1.length = 1 ∧
    (sectionsSplit (sortUnitsBySeqDesc (expandUnits c8Trip [c8Stop]))).2.1 = [] ∧
    (sectionsSplit (sortUnitsBySeqDesc (expandUnits c8Trip [c8Stop]))).2.2 = [] ∧
    c8Stop.sequence = 1 ∧
    (generateLoadPlan c8Trip [c8Stop] c8Truck).map (fun p => p.placement) =
      [Placement.back] := by
  refine ⟨by decide, by decide, by decide, by decide, by decide, ?_⟩
  have hsplit : sectionsSplit (sortUnitsBySeqDesc (expandUnits c8Trip [c8Stop])) =
      ([{ item := c8Item, orderId := 1, sequence := 1 }], [], []) := by decide
  simp only [generateLoadPlan, hsplit]
  norm_num [packSection, shelfStep, List.insertionSort, List.orderedInsert, jsOrInt,
    c8Truck, c8Item]

/-! ### C1 and C5: invariants of the V3 pipeline -/

/-- Sum of a trip's loaded order volumes. -/
def tripVolumeSum (tr : TruckTrip) : ℤ := (tr.loadedOrders.map (fun o => o.totalVolume)).sum

/-- Sum of a trip's loaded order weights. -/
def tripWeightSum (tr : TruckTrip) : ℤ := (tr.loadedOrders.map (fun o => o.totalWeight)).sum

/-- The trip invariant of the spec: the running totals equal the sums
over the loaded orders and stay within the trip's capacity bounds. -/
def TripInvariant (tr : TruckTrip) : Prop :=
  tr.currentVolume = tripVolumeSum tr ∧ tr.currentWeight = tripWeightSum tr ∧
  tr.currentVolume ≤ tr.maxVolume ∧ tr.currentWeight ≤ tr.maxWeight

/-- Per-truck invariant carried through the run. -/
def TruckOK (t : TruckWithTrips) : Prop :=
  0 ≤ t.truck.volume ∧ 0 ≤ t.truck.maxWeight ∧ t.trips ≠ [] ∧ ∀ tr ∈ t.trips, TripInvariant tr

/-- Every truck keeps at least one trip (structural invariant). -/
def FleetPre (fleet : List TruckWithTrips) : Prop := ∀ t ∈ fleet, t.trips ≠ []

/-- Every truck satisfies the full invariant. -/
def FleetOK (fleet : List TruckWithTrips) : Prop := ∀ t ∈ fleet, TruckOK t

/-- All orders loaded on one truck, trip by trip. -/
def truckOrders (t : TruckWithTrips) : List OrderData :=
  t.trips.flatMap (fun tr => tr.loadedOrders)

/-- All orders loaded anywhere in the fleet. -/
def fleetOrders (fleet : List TruckWithTrips) : List OrderData :=
  fleet.flatMap truckOrders

/-- All orders accounted for by a state: loaded plus unassigned. -/
def stateOrders (st : V3State) : List OrderData := fleetOrders st.fleet ++ st.unassigned

/-- A true `canFitInTrip` gives both capacity bounds. -/
theorem canFitInTrip_bounds {tr : TruckTrip} {o : OrderData}
    (h : canFitInTrip tr o = true) :
    tr.currentVolume + o.totalVolume ≤ tr.maxVolume ∧
    tr.currentWeight + o.totalWeight ≤ tr.maxWeight := by
  unfold canFitInTrip at h
  by_cases h1 : tr.maxVolume < tr.currentVolume + o.totalVolume
  · rw [if_pos h1] at h
    exact absurd h (by simp)
  · rw [if_neg h1] at h
    by_cases h2 : tr.maxWeight < tr.currentWeight + o.totalWeight
    · rw [if_pos h2] at h
      exact absurd h (by simp)
    · constructor <;> omega

/-- Loading under a successful `canFitInTrip` preserves the invariant. -/
theorem loadOrderIntoTrip_inv {tr : TruckTrip} {o : OrderData}
    (hfit : canFitInTrip tr o = true) (hinv : TripInvariant tr) :
    TripInvariant (loadOrderIntoTrip tr o) := by
  obtain ⟨hv, hw⟩ := canFitInTrip_bounds hfit
  obtain ⟨h1, h2, h3, h4⟩ := hinv
  unfold TripInvariant tripVolumeSum tripWeightSum loadOrderIntoTrip at *
  refine ⟨?_, ?_, ?_, ?_⟩ <;> simp only [List.map_append, List.sum_append, List.map_cons,
    List.map_nil, List.sum_cons, List.sum_nil] <;> omega

/-- `updateLast` keeps a nonempty list nonempty. -/
theorem updateLast_ne_nil {α : Type} {f : α → α} :
    ∀ {l : List α}, l ≠ [] → updateLast f l ≠ []
  | [], h => absurd rfl h
  | [_], _ => by simp [updateLast]
  | _ :: _ :: _, _ => by simp [updateLast]

/-- Members of `updateLast f l` are members of `l` or the image of its
last element. -/
theorem mem_updateLast {α : Type} {f : α → α} :
    ∀ {l : List α} {x : α}, x ∈ updateLast f l →
      x ∈ l ∨ ∃ h : l ≠ [], x = f (l.getLast h) := by
  intro l
  induction l with
  | nil => intro x hx; simp [updateLast] at hx
  | cons a l ih =>
    intro x hx
    cases l with
    | nil =>
      simp only [updateLast, List.mem_singleton] at hx
      exact Or.inr ⟨by simp, by simpa using hx⟩
    | cons b rest =>
      simp only [updateLast, List.mem_cons] at hx
      rcases hx with rfl | hx
      · exact Or.inl (List.mem_cons_self _ _)
      · rcases ih hx with hx | ⟨hne, rfl⟩
        · exact Or.inl (List.mem_cons_of_mem _ hx)
        · refine Or.inr ⟨by simp, ?_⟩
          rw [List.getLast_cons hne]

/-- Loading into the last trip appends the order to the trip-by-trip
order list. -/
theorem flatMap_updateLast_load {o : OrderData} :
    ∀ {trips : List TruckTrip}, trips ≠ [] →
      (updateLast (fun tr => loadOrderIntoTrip tr o) trips).flatMap
          (fun tr => tr.loadedOrders) =
        trips.flatMap (fun tr => tr.loadedOrders) ++ [o] := by
  intro trips
  induction trips with
  | nil => intro h; exact absurd rfl h
  | cons a l ih =>
    intro _
    cases l with
    | nil => simp [updateLast, loadOrderIntoTrip]
    | cons b rest =>
      simp only [updateLast, List.flatMap_cons]
      rw [ih (by simp)]
      simp

/-- `lastTripD` is the genuine last trip on a nonempty trip list. -/
theorem lastTripD_eq {t : TruckWithTrips} (h : t.trips ≠ []) :
    lastTripD t = t.trips.getLast h := by
  unfold lastTripD
  rw [List.getLast?_eq_getLast t.trips h]
  rfl

/-- `truckOrders` after loading into the last trip. -/
theorem truckOrders_load {t : TruckWithTrips} {o : OrderData} (h : t.trips ≠ []) :
    truckOrders (loadIntoLastTrip t o) = truckOrders t ++ [o] := by
  unfold truckOrders loadIntoLastTrip
  exact flatMap_updateLast_load h

/-- Loading under a successful fit preserves the full truck invariant. -/
theorem loadIntoLastTrip_ok {t : TruckWithTrips} {o : OrderData}
    (hok : TruckOK t) (hfit : canFitInTrip (lastTripD t) o = true) :
    TruckOK (loadIntoLastTrip t o) := by
  obtain ⟨hv, hw, hne, hinv⟩ := hok
  refine ⟨hv, hw, updateLast_ne_nil hne, ?_⟩
  intro tr htr
  rcases mem_updateLast htr with htr | ⟨hne2, rfl⟩
  · exact hinv tr htr
  · refine loadOrderIntoTrip_inv ?_ (hinv _ (List.getLast_mem hne2))
    rwa [lastTripD_eq hne2] at hfit

/-- Shuffling a middle block of an append to the front. -/
theorem perm_shuffle {α : Type} (A os B : List α) :
    (A ++ (os ++ B)).Perm (os ++ (A ++ B)) := by
  rw [← List.append_assoc, ← List.append_assoc]
  exact (@List.perm_append_comm _ A os).append_right B

/-- Replacing one truck whose orders grew by `os` permutes the fleet's
orders by prepending `os`. -/
theorem fleetOrders_set_perm :
    ∀ (fleet : List TruckWithTrips) (i : ℕ) (t t2 : TruckWithTrips) (os : List OrderData),
      fleet.get? i = Option.some t → truckOrders t2 = truckOrders t ++ os →
      (fleetOrders (fleet.set i t2)).Perm (os ++ fleetOrders fleet) := by
  intro fleet
  induction fleet with
  | nil => intro i t t2 os hget; simp at hget
  | cons a rest ih =>
    intro i t t2 os hget ht2
    cases i with
    | zero =>
      obtain rfl : a = t := by simpa using hget
      simp only [List.set_cons_zero]
      unfold fleetOrders
      simp only [List.flatMap_cons]
      rw [ht2, List.append_assoc]
      exact perm_shuffle (truckOrders a) os (rest.flatMap truckOrders)
    | succ j =>
      have hget2 : rest.get? j = Option.some t := by simpa using hget
      simp only [List.set_cons_succ]
      unfold fleetOrders
      simp only [List.flatMap_cons]
      have hrec := ih j t t2 os hget2 ht2
      exact (List.Perm.append_left (truckOrders a) hrec).trans
        (perm_shuffle (truckOrders a) os (rest.flatMap truckOrders))

/-- Membership in a fleet after a one-slot replacement. -/
theorem fleet_set_forall {P : TruckWithTrips → Prop} {fleet : List TruckWithTrips} {i : ℕ}
    {t2 : TruckWithTrips} (h : ∀ t ∈ fleet, P t) (h2 : P t2) :
    ∀ t ∈ fleet.set i t2, P t := by
  intro t ht
  rcases List.mem_or_eq_of_mem_set ht with ht | rfl
  · exact h t ht
  · exact h2

/-- The body of the best-fit scan, named for the proofs. -/
def bfStep (fleet : List TruckWithTrips) (o : OrderData)
    (best : Option (ℕ × ℤ)) (i : ℕ) : Option (ℕ × ℤ) :=
  match fleet.get? i with
  | Option.none => best
  | Option.some t =>
    let trip := lastTripD t
    if canFitInTrip trip o then
      let remaining := trip.maxVolume - trip.currentVolume - o.totalVolume
      match best with
      | Option.none => Option.some (i, remaining)
      | Option.some q => if remaining < q.2 then Option.some (i, remaining) else best
    else best

theorem bestFitIndex_eq_fold (fleet : List TruckWithTrips) (idxs : List ℕ) (o : OrderData) :
    bestFitIndex fleet idxs o = (idxs.foldl (bfStep fleet o) Option.none).map (fun p => p.1) :=
  rfl

/-- One best-fit step either keeps the accumulator or returns a fitting
truck index. -/
theorem bfStep_some {fleet : List TruckWithTrips} {o : OrderData} {best : Option (ℕ × ℤ)}
    {i : ℕ} {q : ℕ × ℤ} (h : bfStep fleet o best i = Option.some q) :
    best = Option.some q ∨
    (∃ t, fleet.get? q.1 = Option.some t ∧ canFitInTrip (lastTripD t) o = true) := by
  unfold bfStep at h
  rcases hg : fleet.get? i with _ | t
  · rw [hg] at h
    exact Or.inl h
  · simp only [hg] at h
    by_cases hfit : canFitInTrip (lastTripD t) o = true
    · rw [if_pos hfit] at h
      rcases best with _ | q0
      · simp only [Option.some.injEq] at h
        subst h
        exact Or.inr ⟨t, hg, hfit⟩
      · dsimp only at h
        by_cases hrem : (lastTripD t).maxVolume - (lastTripD t).currentVolume -
            o.totalVolume < q0.2
        · rw [if_pos hrem] at h
          simp only [Option.some.injEq] at h
          subst h
          exact Or.inr ⟨t, hg, hfit⟩
        · rw [if_neg hrem] at h
          exact Or.inl h
    · rw [if_neg hfit] at h
      exact Or.inl h

/-- The best-fit fold only ever returns fitting truck indices. -/
theorem bfFold_some {fleet : List TruckWithTrips} {o : OrderData} :
    ∀ (idxs : List ℕ) (acc : Option (ℕ × ℤ)) (q : ℕ × ℤ),
      idxs.foldl (bfStep fleet o) acc = Option.some q →
      acc = Option.some q ∨
      (∃ t, fleet.get? q.1 = Option.some t ∧ canFitInTrip (lastTripD t) o = true) := by
  intro idxs
  induction idxs with
  | nil =>
    intro acc q h
    exact Or.inl (by simpa using h)
  | cons i rest ih =>
    intro acc q h
    rw [List.foldl_cons] at h
    rcases ih _ q h with hacc | hsome
    · exact bfStep_some hacc
    · exact Or.inr hsome

/-- A positive `bestFitIndex` points at a truck whose current trip fits
the order. -/
theorem bestFitIndex_some {fleet : List TruckWithTrips} {idxs : List ℕ} {o : OrderData}
    {i : ℕ} (h : bestFitIndex fleet idxs o = Option.some i) :
    ∃ t, fleet.get? i = Option.some t ∧ canFitInTrip (lastTripD t) o = true := by
  rw [bestFitIndex_eq_fold] at h
  rcases hm : idxs.foldl (bfStep fleet o) Option.none with _ | q
  · rw [hm] at h
    simp at h
  · rw [hm] at h
    obtain rfl : q.1 = i := by simpa using h
    rcases bfFold_some idxs Option.none q hm with hacc | hsome
    · simp at hacc
    · exact hsome

/-- A positive `firstFitIndex` points at a truck whose current trip fits
the order. -/
theorem firstFitIndex_some {fleet : List TruckWithTrips} {o : OrderData} {i : ℕ}
    (h : firstFitIndex fleet o = Option.some i) :
    ∃ t, fleet.get? i = Option.some t ∧ canFitInTrip (lastTripD t) o = true := by
  unfold firstFitIndex at h
  have hp := List.find?_some h
  rcases hg : fleet.get? i with _ | t
  · rw [hg] at hp
    simp at hp
  · rw [hg] at hp
    exact ⟨t, rfl, by simpa using hp⟩

/-- `modifyAt` at a hit index is `set` with the transformed element. -/
theorem modifyAt_eq_set {α : Type} {l : List α} {i : ℕ} {a : α} {f : α → α}
    (h : l.get? i = Option.some a) : modifyAt l i f = l.set i (f a) := by
  unfold modifyAt
  rw [h]

/-- One step-3 order is either loaded into exactly one current trip or
appended to the unassigned pile; trips stay nonempty. -/
theorem step3Order_spec {zidxs : List ℕ} {st : V3State} {o : OrderData}
    (h : FleetPre st.fleet) :
    FleetPre (step3Order zidxs st o).fleet ∧
    (stateOrders (step3Order zidxs st o)).Perm (o :: stateOrders st) := by
  have hload : ∀ (i : ℕ) t, st.fleet.get? i = Option.some t →
      canFitInTrip (lastTripD t) o = true →
      FleetPre (modifyAt st.fleet i (fun t2 => loadIntoLastTrip t2 o)) ∧
      (stateOrders { st with fleet := modifyAt st.fleet i (fun t2 => loadIntoLastTrip t2 o) }).Perm
        (o :: stateOrders st) := by
    intro i t hget hfit
    have hne : t.trips ≠ [] := h t (List.get?_mem hget)
    rw [modifyAt_eq_set hget]
    constructor
    · exact fleet_set_forall h (updateLast_ne_nil hne)
    · have hperm := fleetOrders_set_perm st.fleet i t (loadIntoLastTrip t o) [o] hget
        (truckOrders_load hne)
      unfold stateOrders
      refine (hperm.append_right st.unassigned).trans ?_
      simp
  unfold step3Order
  rcases hb : bestFitIndex st.fleet zidxs o with _ | i
  · rcases hf : firstFitIndex st.fleet o with _ | i
    · refine ⟨h, ?_⟩
      unfold stateOrders
      simp only []
      rw [← List.append_assoc]
      exact List.perm_append_singleton _ _
    · obtain ⟨t, hget, hfit⟩ := firstFitIndex_some hf
      exact hload i t hget hfit
  · obtain ⟨t, hget, hfit⟩ := bestFitIndex_some hb
    exact hload i t hget hfit

/-- One step-3 order preserves the full fleet invariant. -/
theorem step3Order_ok {zidxs : List ℕ} {st : V3State} {o : OrderData}
    (h : FleetOK st.fleet) :
    FleetOK (step3Order zidxs st o).fleet := by
  have hload : ∀ (i : ℕ) t, st.fleet.get? i = Option.some t →
      canFitInTrip (lastTripD t) o = true →
      FleetOK (modifyAt st.fleet i (fun t2 => loadIntoLastTrip t2 o)) := by
    intro i t hget hfit
    rw [modifyAt_eq_set hget]
    exact fleet_set_forall h (loadIntoLastTrip_ok (h t (List.get?_mem hget)) hfit)
  unfold step3Order
  rcases hb : bestFitIndex st.fleet zidxs o with _ | i
  · rcases hf : firstFitIndex st.fleet o with _ | i
    · exact h
    · obtain ⟨t, hget, hfit⟩ := firstFitIndex_some hf
      exact hload i t hget hfit
  · obtain ⟨t, hget, hfit⟩ := bestFitIndex_some hb
    exact hload i t hget hfit

/-- The new trip opened in step 4 carries no orders. -/
theorem truckOrders_push_trip {t : TruckWithTrips} :
    truckOrders { t with trips := t.trips ++ [newTripFor t] } = truckOrders t := by
  unfold truckOrders
  simp [newTripFor]

/-- The step-4 truck scan: the order is packed into exactly one trip
(possibly a freshly opened one), or every scanned truck gains at most an
empty trip and the order stays unpacked. -/
theorem step4Go_spec {o : OrderData} :
    ∀ (idxs : List ℕ) (fleet : List TruckWithTrips), FleetPre fleet →
      FleetPre (step4Go o idxs fleet).1 ∧
      ((step4Go o idxs fleet).2 = true →
        (fleetOrders (step4Go o idxs fleet).1).Perm (o :: fleetOrders fleet)) ∧
      ((step4Go o idxs fleet).2 = false →
        (fleetOrders (step4Go o idxs fleet).1).Perm (fleetOrders fleet)) := by
  intro idxs
  induction idxs with
  | nil =>
    intro fleet h
    exact ⟨h, by simp [step4Go], fun _ => by simp [step4Go]⟩
  | cons i rest ih =>
    intro fleet h
    unfold step4Go
    rcases hg : fleet.get? i with _ | t
    · simp only [hg]
      exact ih fleet h
    · simp only [hg]
      have hne : t.trips ≠ [] := h t (List.get?_mem hg)
      by_cases hfit : canFitInTrip (lastTripD t) o = true
      · rw [if_pos hfit]
        refine ⟨?_, ?_, by simp⟩
        · rw [modifyAt_eq_set hg]
          exact fleet_set_forall h (updateLast_ne_nil hne)
        · intro _
          rw [modifyAt_eq_set hg]
          have hperm := fleetOrders_set_perm fleet i t (loadIntoLastTrip t o) [o] hg
            (truckOrders_load hne)
          simpa using hperm
      · rw [if_neg hfit]
        by_cases hfit2 : canFitInTrip (newTripFor t) o = true
        · rw [if_pos hfit2]
          refine ⟨?_, ?_, by simp⟩
          · refine fleet_set_forall h ?_
            exact updateLast_ne_nil (by simp)
          · intro _
            have hto : truckOrders
                (loadIntoLastTrip { t with trips := t.trips ++ [newTripFor t] } o) =
                truckOrders t ++ [o] := by
              rw [truckOrders_load (by simp), truckOrders_push_trip]
            have hperm := fleetOrders_set_perm fleet i t
              (loadIntoLastTrip { t with trips := t.trips ++ [newTripFor t] } o) [o] hg hto
            simpa using hperm
        · rw [if_neg hfit2]
          have hpre2 : FleetPre (fleet.set i { t with trips := t.trips ++ [newTripFor t] }) :=
            fleet_set_forall h (by simp)
          obtain ⟨ihpre, ihtrue, ihfalse⟩ := ih _ hpre2
          have hperm0 : (fleetOrders (fleet.set i
              { t with trips := t.trips ++ [newTripFor t] })).Perm (fleetOrders fleet) := by
            have := fleetOrders_set_perm fleet i t
              { t with trips := t.trips ++ [newTripFor t] } [] hg
              (by rw [truckOrders_push_trip]; simp)
            simpa using this
          refine ⟨ihpre, ?_, ?_⟩
          · intro hb
            exact (ihtrue hb).trans (hperm0.cons o)
          · intro hb
            exact (ihfalse hb).trans hperm0

/-- The step-4 truck scan preserves the full fleet invariant (a freshly
opened trip satisfies it because truck capacities are nonnegative). -/
theorem step4Go_ok {o : OrderData} :
    ∀ (idxs : List ℕ) (fleet : List TruckWithTrips), FleetOK fleet →
      FleetOK (step4Go o idxs fleet).1 := by
  intro idxs
  induction idxs with
  | nil => intro fleet h; exact h
  | cons i rest ih =>
    intro fleet h
    unfold step4Go
    rcases hg : fleet.get? i with _ | t
    · simp only [hg]
      exact ih fleet h
    · simp only [hg]
      have hok : TruckOK t := h t (List.get?_mem hg)
      have hok2 : TruckOK { t with trips := t.trips ++ [newTripFor t] } := by
        obtain ⟨hv, hw, hne, hinv⟩ := hok
        refine ⟨hv, hw, by simp, ?_⟩
        intro tr htr
        rcases List.mem_append.mp htr with htr | htr
        · exact hinv tr htr
        · obtain rfl : tr = newTripFor t := by simpa using htr
          refine ⟨by simp [newTripFor, tripVolumeSum], by simp [newTripFor, tripWeightSum],
            ?_, ?_⟩ <;> simp [newTripFor, hv, hw]
      by_cases hfit : canFitInTrip (lastTripD t) o = true
      · rw [if_pos hfit]
        rw [modifyAt_eq_set hg]
        exact fleet_set_forall h (loadIntoLastTrip_ok hok hfit)
      · rw [if_neg hfit]
        by_cases hfit2 : canFitInTrip (newTripFor t) o = true
        · rw [if_pos hfit2]
          refine fleet_set_forall h (loadIntoLastTrip_ok hok2 ?_)
          have hlast : lastTripD { t with trips := t.trips ++ [newTripFor t] } =
              newTripFor t := by
            rw [lastTripD_eq (by simp)]
            simp
          rwa [hlast]
        · rw [if_neg hfit2]
          exact ih _ (fleet_set_forall h hok2)

/-- Step 4 for one order: accounted orders grow by exactly that order. -/
theorem step4One_spec {st : V3State} {o : OrderData} (h : FleetPre st.fleet) :
    FleetPre (step4One st o).fleet ∧
    (stateOrders (step4One st o)).Perm (o :: stateOrders st) := by
  unfold step4One
  obtain ⟨hpre, htrue, hfalse⟩ := step4Go_spec (sortIdxByVolume st.fleet) st.fleet h
  rcases hres : (step4Go o (sortIdxByVolume st.fleet) st.fleet).2 with _ | _
  · rw [if_neg (by rw [hres]; simp)]
    refine ⟨hpre, ?_⟩
    unfold stateOrders
    refine ((hfalse hres).append_right _).trans ?_
    rw [← List.append_assoc]
    exact List.perm_append_singleton _ _
  · rw [if_pos (by rw [hres])]
    refine ⟨hpre, ?_⟩
    unfold stateOrders
    exact ((htrue hres).append_right st.unassigned).trans (by simp)

/-- Step 4 for one order preserves the full fleet invariant. -/
theorem step4One_ok {st : V3State} {o : OrderData} (h : FleetOK st.fleet) :
    FleetOK (step4One st o).fleet := by
  unfold step4One
  have hok := step4Go_ok (o := o) (sortIdxByVolume st.fleet) st.fleet h
  rcases hres : (step4Go o (sortIdxByVolume st.fleet) st.fleet).2 with _ | _
  · rw [if_neg (by rw [hres]; simp)]
    exact hok
  · rw [if_pos (by rw [hres])]
    exact hok

/-! Grouping-by-zone bookkeeping for the partition proof. -/

/-- The keys of a record. -/
def recKeys {α : Type} (r : ZRecord α) : List String := r.map (fun p => p.1)

/-- The concatenated values of a record of lists. -/
def recVals {α : Type} (r : ZRecord (List α)) : List α := r.flatMap (fun p => p.2)

/-- `recPush` keeps keys (hit) or appends the new key (miss). -/
theorem recKeys_recPush {α : Type} (r : ZRecord (List α)) (k : String) (v : α) :
    recKeys (recPush r k v) = recKeys r ∨ recKeys (recPush r k v) = recKeys r ++ [k] := by
  unfold recPush
  by_cases hf : (r.find? (fun p => p.1 == k)).isSome = true
  · rw [if_pos hf]
    left
    unfold recKeys
    rw [List.map_map]
    refine List.map_congr_left ?_
    intro p _
    simp only [Function.comp_apply]
    split <;> rfl
  · rw [if_neg hf]
    right
    unfold recKeys
    simp

/-- A missed key is genuinely absent. -/
theorem not_mem_keys_of_find_none {α : Type} {r : ZRecord (List α)} {k : String}
    (hf : ¬ (r.find? (fun p => p.1 == k)).isSome = true) : k ∉ recKeys r := by
  intro hk
  obtain ⟨p, hp, hpk⟩ := List.mem_map.mp hk
  refine hf ?_
  rw [List.find?_isSome]
  exact ⟨p, hp, by simp [hpk]⟩

/-- `recPush` preserves key uniqueness. -/
theorem recKeys_recPush_nodup {α : Type} {r : ZRecord (List α)} {k : String} {v : α}
    (h : (recKeys r).Nodup) : (recKeys (recPush r k v)).Nodup := by
  rcases recKeys_recPush r k v with he | he
  · rw [he]
    exact h
  · rw [he]
    refine ((List.perm_append_singleton k (recKeys r)).nodup_iff).mpr ?_
    refine List.Nodup.cons ?_ h
    unfold recPush at he
    by_cases hf : (r.find? (fun p => p.1 == k)).isSome = true
    · exfalso
      rw [if_pos hf] at he
      have : (recKeys (r.map (fun p => if p.1 == k then (p.1, p.2 ++ [v]) else p))).length =
          (recKeys r).length := by
        unfold recKeys
        simp
      rw [he] at this
      simp at this
    · exact not_mem_keys_of_find_none hf

/-- Updating the (unique) entry of a present key appends the value. -/
theorem recVals_mapUpdate {α : Type} {k : String} {v : α} :
    ∀ (r : ZRecord (List α)), (recKeys r).Nodup →
      (r.find? (fun p => p.1 == k)).isSome = true →
      (recVals (r.map (fun p => if p.1 == k then (p.1, p.2 ++ [v]) else p))).Perm
        (recVals r ++ [v]) := by
  intro r
  induction r with
  | nil => intro _ hf; simp at hf
  | cons p rest ih =>
    intro hnd hf
    by_cases hpk : (p.1 == k) = true
    · have hrest : rest.map (fun p => if p.1 == k then (p.1, p.2 ++ [v]) else p) = rest := by
        conv_rhs => rw [← List.map_id rest]
        refine List.map_congr_left ?_
        intro q hq
        have hqk : ¬ (q.1 == k) = true := by
          have hk : p.1 = k := by simpa using hpk
          have hnotin : p.1 ∉ recKeys rest := by
            have := hnd
            unfold recKeys at this
            simp only [List.map_cons, List.nodup_cons] at this
            exact this.1
          intro hq2
          refine hnotin ?_
          rw [hk]
          have : q.1 = k := by simpa using hq2
          rw [← this]
          exact List.mem_map_of_mem _ hq
        simp [hqk, id]
      simp only [List.map_cons, if_pos hpk, hrest]
      unfold recVals
      simp only [List.flatMap_cons]
      rw [List.append_assoc]
      refine (perm_shuffle p.2 [v] (rest.flatMap (fun p => p.2))).trans ?_
      exact List.perm_append_comm
    · have hf2 : (rest.find? (fun p => p.1 == k)).isSome = true := by
        rw [List.find?_cons_of_neg] at hf
        · exact hf
        · simpa using hpk
      have hnd2 : (recKeys rest).Nodup := by
        unfold recKeys at hnd ⊢
        simp only [List.map_cons, List.nodup_cons] at hnd
        exact hnd.2
      simp only [List.map_cons, if_neg hpk]
      unfold recVals
      simp only [List.flatMap_cons]
      rw [List.append_assoc]
      exact List.Perm.append_left p.2 (ih hnd2 hf2)

/-- One `recPush` appends the value to the record's flattened contents. -/
theorem recVals_recPush {α : Type} {r : ZRecord (List α)} {k : String} {v : α}
    (hnd : (recKeys r).Nodup) :
    (recVals (recPush r k v)).Perm (recVals r ++ [v]) := by
  unfold recPush
  by_cases hf : (r.find? (fun p => p.1 == k)).isSome = true
  · rw [if_pos hf]
    exact recVals_mapUpdate r hnd hf
  · rw [if_neg hf]
    unfold recVals
    simp

/-- `groupByZone` has unique keys and its values partition the input. -/
theorem groupByZone_spec (orders : List OrderData) :
    (recKeys (groupByZone orders)).Nodup ∧ (recVals (groupByZone orders)).Perm orders := by
  have hnd := foldl_preserve
    (P := fun r : ZRecord (List OrderData) => (recKeys r).Nodup)
    (s := fun rec o => recPush rec o.zone o)
    (fun r o hr => recKeys_recPush_nodup hr) orders [] (by simp [recKeys])
  refine ⟨hnd, ?_⟩
  have h := foldl_perm_collect (s := fun rec o => recPush rec o.zone o)
    (f := recVals) (g := id)
    (Q := fun r : ZRecord (List OrderData) => (recKeys r).Nodup)
    (fun r o hr => recKeys_recPush_nodup hr)
    (fun r o hr => (recVals_recPush hr).trans (List.perm_append_singleton o (recVals r)))
    orders [] (by simp [recKeys])
  simpa [recVals] using h

/-- Pointwise-permuted value lists yield permuted concatenations. -/
theorem flatMap_perm_congr {α β : Type} {f g : α → List β}
    (h : ∀ a, (f a).Perm (g a)) : ∀ l : List α, (l.flatMap f).Perm (l.flatMap g) := by
  intro l
  induction l with
  | nil => simp
  | cons a l ih =>
    simp only [List.flatMap_cons]
    exact (h a).append ih

/-- Sorting each zone's orders keeps the keys and permutes the values. -/
theorem zoneOrdersSorted_spec (ordersData : List OrderData) :
    recKeys (zoneOrdersSorted ordersData) = recKeys (groupByZone ordersData) ∧
    (recVals (zoneOrdersSorted ordersData)).Perm (recVals (groupByZone ordersData)) := by
  constructor
  · unfold zoneOrdersSorted recKeys
    rw [List.map_map]
    rfl
  · unfold zoneOrdersSorted recVals
    rw [List.flatMap_map]
    refine flatMap_perm_congr ?_ _
    intro p
    exact List.perm_insertionSort _ p.2

/-- On a record with unique keys, looking up a member entry's key
returns its value. -/
theorem recGetD_of_mem {α : Type} :
    ∀ {r : ZRecord α}, (recKeys r).Nodup → ∀ {p : String × α}, p ∈ r → ∀ (d : α),
      recGetD r p.1 d = p.2 := by
  intro r
  induction r with
  | nil => intro _ p hp; simp at hp
  | cons q rest ih =>
    intro hnd p hp d
    rcases List.mem_cons.mp hp with rfl | hp
    · unfold recGetD
      rw [List.find?_cons_of_pos _ (by simp)]
      rfl
    · have hqp : ¬ (q.1 == p.1) = true := by
        have hnotin : q.1 ∉ recKeys rest := by
          unfold recKeys at hnd
          simp only [List.map_cons, List.nodup_cons] at hnd
          exact hnd.1
        intro he
        refine hnotin ?_
        have : q.1 = p.1 := by simpa using he
        rw [this]
        exact List.mem_map_of_mem _ hp
      have hnd2 : (recKeys rest).Nodup := by
        unfold recKeys at hnd ⊢
        simp only [List.map_cons, List.nodup_cons] at hnd
        exact hnd.2
      unfold recGetD
      rw [List.find?_cons_of_neg]
      · exact ih hnd2 hp d
      · simpa using hqp

/-- Iterating a nodup-keyed record's lookups over any permutation of
its keys concatenates to a permutation of its values. -/
theorem flatMap_lookup_perm {zo : ZRecord (List OrderData)} (hnd : (recKeys zo).Nodup)
    {ks : List String} (hks : ks.Perm (recKeys zo)) :
    (ks.flatMap (fun z => recGetD zo z [])).Perm (recVals zo) := by
  have h1 : (ks.map (fun z => recGetD zo z [])).Perm
      ((recKeys zo).map (fun z => recGetD zo z [])) := hks.map _
  have h2 : (recKeys zo).map (fun z => recGetD zo z []) = zo.map (fun p => p.2) := by
    unfold recKeys
    rw [List.map_map]
    refine List.map_congr_left ?_
    intro p hp
    exact recGetD_of_mem hnd hp []
  rw [List.flatMap_def]
  have h3 : (recVals zo) = (zo.map (fun p => p.2)).flatten := by
    unfold recVals
    rw [List.flatMap_def]
  rw [h3]
  exact (h1.trans (by rw [h2])).flatten

/-- Step 3 over a zone list: accounted orders grow by exactly the
processed zone lists. -/
theorem step3_spec (zo : ZRecord (List OrderData)) (ztm : ZRecord (List ℕ)) :
    ∀ (zones : List String) (st : V3State), FleetPre st.fleet →
      FleetPre (step3 zo ztm zones st).fleet ∧
      (stateOrders (step3 zo ztm zones st)).Perm
        ((zones.flatMap (fun z => recGetD zo z [])) ++ stateOrders st) := by
  intro zones
  induction zones with
  | nil =>
    intro st h
    exact ⟨h, by simp [step3]⟩
  | cons z zs ih =>
    intro st h
    have hrw : step3 zo ztm (z :: zs) st =
        step3 zo ztm zs ((recGetD zo z []).foldl (step3Order (recGetD ztm z [])) st) := rfl
    rw [hrw]
    have hpre := foldl_preserve (P := fun st : V3State => FleetPre st.fleet)
      (s := step3Order (recGetD ztm z []))
      (fun st o hq => (step3Order_spec hq).1) (recGetD zo z []) st h
    have hinner := foldl_perm_collect (s := step3Order (recGetD ztm z []))
      (f := stateOrders) (g := id)
      (Q := fun st : V3State => FleetPre st.fleet)
      (fun st o hq => (step3Order_spec hq).1)
      (fun st o hq => (step3Order_spec hq).2)
      (recGetD zo z []) st h
    rw [List.map_id] at hinner
    obtain ⟨ih1, ih2⟩ := ih _ hpre
    refine ⟨ih1, ?_⟩
    refine ih2.trans ?_
    refine (List.Perm.append_left _ hinner).trans ?_
    refine (perm_shuffle (zs.flatMap (fun z => recGetD zo z [])) (recGetD zo z [])
      (stateOrders st)).trans ?_
    rw [List.flatMap_cons, List.append_assoc]

/-- Step 3 preserves the full fleet invariant. -/
theorem step3_ok (zo : ZRecord (List OrderData)) (ztm : ZRecord (List ℕ))
    (zones : List String) (st : V3State) (h : FleetOK st.fleet) :
    FleetOK (step3 zo ztm zones st).fleet := by
  refine foldl_preserve (P := fun st : V3State => FleetOK st.fleet) ?_ zones st h
  intro st2 z h2
  exact foldl_preserve (P := fun st : V3State => FleetOK st.fleet)
    (fun st3 o h3 => step3Order_ok h3) (recGetD zo z []) st2 h2

/-- Step 4 neither loses nor duplicates accounted orders. -/
theorem step4_spec (st : V3State) (h : FleetPre st.fleet) :
    FleetPre (step4 st).fleet ∧ (stateOrders (step4 st)).Perm (stateOrders st) := by
  unfold step4
  have hpre := foldl_preserve (P := fun st : V3State => FleetPre st.fleet)
    (s := step4One)
    (fun st o hq => (step4One_spec hq).1)
    (sortOrdersByVolumeDesc st.unassigned) { fleet := st.fleet, unassigned := [] } h
  have hperm := foldl_perm_collect (s := step4One) (f := stateOrders) (g := id)
    (Q := fun st : V3State => FleetPre st.fleet)
    (fun st o hq => (step4One_spec hq).1)
    (fun st o hq => (step4One_spec hq).2)
    (sortOrdersByVolumeDesc st.unassigned) { fleet := st.fleet, unassigned := [] } h
  rw [List.map_id] at hperm
  refine ⟨hpre, ?_⟩
  refine hperm.trans ?_
  refine ((List.perm_insertionSort _ st.unassigned).append_right _).trans ?_
  unfold stateOrders
  simp only [List.append_nil]
  exact List.perm_append_comm

/-- Step 4 preserves the full fleet invariant. -/
theorem step4_ok (st : V3State) (h : FleetOK st.fleet) : FleetOK (step4 st).fleet := by
  unfold step4
  exact foldl_preserve (P := fun st : V3State => FleetOK st.fleet)
    (fun st2 o h2 => step4One_ok h2)
    (sortOrdersByVolumeDesc st.unassigned) { fleet := st.fleet, unassigned := [] } h

/-- The freshly initialized (and sorted) fleet: nonempty trips, no
orders loaded. -/
theorem initFleet_facts (trucksData : List TruckData) :
    FleetPre (sortFleet (initFleet trucksData)) ∧
    fleetOrders (sortFleet (initFleet trucksData)) = [] := by
  have hmem : ∀ t ∈ sortFleet (initFleet trucksData), ∃ td ∈ trucksData,
      t = { truck := td, trips := [initialTrip td], totalOrders := 0, totalVolumeUsed := 0,
            totalWeightUsed := 0, totalRouteTime := 0 } := by
    intro t ht
    have ht2 : t ∈ initFleet trucksData := (List.perm_insertionSort _ _).mem_iff.mp ht
    obtain ⟨td, htd, rfl⟩ := List.mem_map.mp ht2
    exact ⟨td, htd, rfl⟩
  constructor
  · intro t ht
    obtain ⟨td, _, rfl⟩ := hmem t ht
    simp
  · unfold fleetOrders
    rw [List.flatMap_eq_nil_iff]
    intro t ht
    obtain ⟨td, _, rfl⟩ := hmem t ht
    simp [truckOrders, initialTrip]

/-- The packing phase accounts for every input order exactly once. -/
theorem v3Final_spec (ordersData : List OrderData) (trucksData : List TruckData) :
    FleetPre (v3FinalState ordersData trucksData).fleet ∧
    (stateOrders (v3FinalState ordersData trucksData)).Perm ordersData := by
  obtain ⟨hpre0, h0ord⟩ := initFleet_facts trucksData
  have hrw : v3FinalState ordersData trucksData =
      step4 (step3 (zoneOrdersSorted ordersData)
        (addRemainingTrucks (sortFleet (initFleet trucksData))
          (sortedZonesOf (zoneOrdersSorted ordersData))
          (buildZoneTruckMap (sortFleet (initFleet trucksData))
            (zoneOrdersSorted ordersData)
            (sortedZonesOf (zoneOrdersSorted ordersData)))).1
        (sortedZonesOf (zoneOrdersSorted ordersData))
        { fleet := sortFleet (initFleet trucksData), unassigned := [] }) := rfl
  obtain ⟨h3pre, h3perm⟩ := step3_spec (zoneOrdersSorted ordersData) _
    (sortedZonesOf (zoneOrdersSorted ordersData))
    { fleet := sortFleet (initFleet trucksData), unassigned := [] } hpre0
  obtain ⟨h4pre, h4perm⟩ := step4_spec _ h3pre
  rw [hrw]
  refine ⟨h4pre, ?_⟩
  refine h4perm.trans (h3perm.trans ?_)
  have hinit : stateOrders ⟨sortFleet (initFleet trucksData), ([] : List OrderData)⟩ = [] := by
    unfold stateOrders
    rw [h0ord]
    rfl
  rw [hinit, List.append_nil]
  obtain ⟨hgnd, hgperm⟩ := groupByZone_spec ordersData
  obtain ⟨hknd, hvperm⟩ := zoneOrdersSorted_spec ordersData
  have hnd : (recKeys (zoneOrdersSorted ordersData)).Nodup := by
    rw [hknd]
    exact hgnd
  have hks : (sortedZonesOf (zoneOrdersSorted ordersData)).Perm
      (recKeys (zoneOrdersSorted ordersData)) := by
    unfold sortedZonesOf recKeys
    exact (List.perm_insertionSort _ _).map _
  exact (flatMap_lookup_perm hnd hks).trans (hvperm.trans hgperm)

/-- Finalizing totals does not change the loaded orders. -/
theorem fleetOrders_finalize (fleet : List TruckWithTrips) :
    fleetOrders (fleet.map finalizeTruck) = fleetOrders fleet := by
  unfold fleetOrders
  rw [List.flatMap_map]
  rfl

/-- The per-truck order totals sum to the number of loaded orders. -/
theorem assigned_eq_length (fleet : List TruckWithTrips) :
    ((fleet.map finalizeTruck).map (fun t => t.totalOrders)).sum = (fleetOrders fleet).length := by
  unfold fleetOrders
  rw [List.length_flatMap, List.map_map]
  congr 1
  refine List.map_congr_left ?_
  intro t _
  simp only [Function.comp_apply, finalizeTruck]
  unfold truckOrders
  rw [List.length_flatMap]
  rfl

/-- C5: the optimizer partitions its input orders — each order ends up
loaded on exactly one trip or reported unassigned exactly once (as
multisets, loaded plus unassigned permute the input), the summary counts
add up, and every unassigned report carries the fixed reason string. -/
theorem c5_order_partition (ordersData : List OrderData) (trucksData : List TruckData) :
    ((fleetOrders (runOptimizationV3 ordersData trucksData).trucksWithTrips) ++
      (runOptimizationV3 ordersData trucksData).unassignedOrders).Perm ordersData ∧
    (runOptimizationV3 ordersData trucksData).summary.assignedOrders +
      (runOptimizationV3 ordersData trucksData).summary.unassignedOrders =
      (runOptimizationV3 ordersData trucksData).summary.totalOrders ∧
    ∀ u ∈ reportUnassigned (runOptimizationV3 ordersData trucksData).unassignedOrders,
      u.reason = "No available truck with capacity" := by
  obtain ⟨hpre, hperm⟩ := v3Final_spec ordersData trucksData
  have h1 : (runOptimizationV3 ordersData trucksData).trucksWithTrips =
      (v3FinalState ordersData trucksData).fleet.map finalizeTruck := rfl
  have h2 : (runOptimizationV3 ordersData trucksData).unassignedOrders =
      (v3FinalState ordersData trucksData).unassigned := rfl
  have hmain : ((fleetOrders (runOptimizationV3 ordersData trucksData).trucksWithTrips) ++
      (runOptimizationV3 ordersData trucksData).unassignedOrders).Perm ordersData := by
    rw [h1, h2, fleetOrders_finalize]
    exact hperm
  refine ⟨hmain, ?_, ?_⟩
  · have hlen := hmain.length_eq
    rw [List.length_append] at hlen
    have ha : (runOptimizationV3 ordersData trucksData).summary.assignedOrders =
        (fleetOrders (v3FinalState ordersData trucksData).fleet).length :=
      assigned_eq_length (v3FinalState ordersData trucksData).fleet
    have hb : (runOptimizationV3 ordersData trucksData).summary.unassignedOrders =
        (v3FinalState ordersData trucksData).unassigned.length := rfl
    have hc : (runOptimizationV3 ordersData trucksData).summary.totalOrders =
        ordersData.length := rfl
    rw [ha, hb, hc]
    rw [h1, fleetOrders_finalize] at hlen
    rw [h2] at hlen
    exact hlen
  · intro u hu
    obtain ⟨o, _, rfl⟩ := List.mem_map.mp hu
    rfl

/-- The freshly initialized (and sorted) fleet satisfies the full
invariant whenever the input trucks declare nonnegative capacities. -/
theorem initFleet_ok (trucksData : List TruckData)
    (htrucks : ∀ t ∈ trucksData, 0 ≤ t.volume ∧ 0 ≤ t.maxWeight) :
    FleetOK (sortFleet (initFleet trucksData)) := by
  intro t ht
  have ht2 : t ∈ initFleet trucksData := (List.perm_insertionSort _ _).mem_iff.mp ht
  obtain ⟨td, htd, rfl⟩ := List.mem_map.mp ht2
  obtain ⟨hv, hw⟩ := htrucks td htd
  refine ⟨hv, hw, by simp, ?_⟩
  intro tr htr
  have heq : tr = initialTrip td := by simpa using htr
  subst heq
  refine ⟨rfl, rfl, ?_, ?_⟩
  · simpa [initialTrip, tripVolumeSum] using hv
  · simpa [initialTrip, tripWeightSum] using hw

/-- The packing phase keeps the full fleet invariant. -/
theorem v3Final_ok (ordersData : List OrderData) (trucksData : List TruckData)
    (htrucks : ∀ t ∈ trucksData, 0 ≤ t.volume ∧ 0 ≤ t.maxWeight) :
    FleetOK (v3FinalState ordersData trucksData).fleet := by
  have hrw : v3FinalState ordersData trucksData =
      step4 (step3 (zoneOrdersSorted ordersData)
        (addRemainingTrucks (sortFleet (initFleet trucksData))
          (sortedZonesOf (zoneOrdersSorted ordersData))
          (buildZoneTruckMap (sortFleet (initFleet trucksData))
            (zoneOrdersSorted ordersData)
            (sortedZonesOf (zoneOrdersSorted ordersData)))).1
        (sortedZonesOf (zoneOrdersSorted ordersData))
        { fleet := sortFleet (initFleet trucksData), unassigned := [] }) := rfl
  rw [hrw]
  exact step4_ok _ (step3_ok _ _ _ _ (initFleet_ok trucksData htrucks))

/-- C1: in every result of `runOptimizationV3` on trucks with
nonnegative declared capacities, every trip's running totals equal the
sums of `totalVolume` / `totalWeight` over its loaded orders and respect
both capacity bounds; moreover loading an order after a successful
`canFitInTrip` check always preserves that invariant. -/
theorem c1_capacity_invariant (ordersData : List OrderData) (trucksData : List TruckData)
    (htrucks : ∀ t ∈ trucksData, 0 ≤ t.volume ∧ 0 ≤ t.maxWeight) :
    (∀ twt ∈ (runOptimizationV3 ordersData trucksData).trucksWithTrips, ∀ tr ∈ twt.trips,
      tr.currentVolume = tripVolumeSum tr ∧ tr.currentWeight = tripWeightSum tr ∧
      tr.currentVolume ≤ tr.maxVolume ∧ tr.currentWeight ≤ tr.maxWeight) ∧
    (∀ (tr : TruckTrip) (o : OrderData),
      canFitInTrip tr o = true → TripInvariant tr → TripInvariant (loadOrderIntoTrip tr o)) := by
  refine ⟨?_, fun tr o hf hi => loadOrderIntoTrip_inv hf hi⟩
  have hok := v3Final_ok ordersData trucksData htrucks
  intro twt htwt tr htr
  have h1 : (runOptimizationV3 ordersData trucksData).trucksWithTrips =
      (v3FinalState ordersData trucksData).fleet.map finalizeTruck := rfl
  rw [h1] at htwt
  obtain ⟨t, ht, rfl⟩ := List.mem_map.mp htwt
  have htr2 : tr ∈ t.trips := by simpa [finalizeTruck] using htr
  exact (hok t ht).2.2.2 tr htr2

/-- Witness for C1 at a concrete two-order, one-truck input. -/
theorem c1_capacity_invariant_witness :
    (∀ t ∈ [t1], (0:ℤ) ≤ t.volume ∧ (0:ℤ) ≤ t.maxWeight) ∧
    ((∀ twt ∈ (runOptimizationV3 [o1, o2] [t1]).trucksWithTrips, ∀ tr ∈ twt.trips,
      tr.currentVolume = tripVolumeSum tr ∧ tr.currentWeight = tripWeightSum tr ∧
      tr.currentVolume ≤ tr.maxVolume ∧ tr.currentWeight ≤ tr.maxWeight) ∧
    (∀ (tr : TruckTrip) (o : OrderData),
      canFitInTrip tr o = true → TripInvariant tr → TripInvariant (loadOrderIntoTrip tr o))) :=
  ⟨by decide, c1_capacity_invariant [o1, o2] [t1] (by decide)⟩

/-- A trip with no loaded orders has route time 0 (any return flag). -/
theorem getTripRouteTime_empty (tr : TruckTrip) (b : Bool) (h : tr.loadedOrders = []) :
    getTripRouteTime tr b = 0 := by
  unfold getTripRouteTime
  rw [h]
  rfl

/-- Appending an empty trip to a nonempty trip list adds exactly one
depot reload interval to the truck's total route time. -/
theorem getTruckTotalRouteTime_append_empty (tr : TruckTrip) (h : tr.loadedOrders = []) :
    ∀ (trips : List TruckTrip), trips ≠ [] →
      getTruckTotalRouteTime (trips ++ [tr]) = getTruckTotalRouteTime trips + DEPOT_RELOAD_TIME := by
  intro trips
  induction trips with
  | nil => intro hn; exact absurd rfl hn
  | cons t ts ih =>
    intro _
    cases ts with
    | nil =>
      show getTripRouteTime t true + DEPOT_RELOAD_TIME + getTruckTotalRouteTime [tr] =
        getTripRouteTime t true + DEPOT_RELOAD_TIME
      have h2 : getTruckTotalRouteTime [tr] = getTripRouteTime tr true := rfl
      rw [h2, getTripRouteTime_empty tr true h]
      ring
    | cons t2 rest =>
      have ih2 := ih (by simp)
      show getTripRouteTime t true + DEPOT_RELOAD_TIME +
          getTruckTotalRouteTime ((t2 :: rest) ++ [tr]) =
        getTripRouteTime t true + DEPOT_RELOAD_TIME + getTruckTotalRouteTime (t2 :: rest) +
          DEPOT_RELOAD_TIME
      rw [ih2]
      ring

set_option maxRecDepth 4000 in
/-- C10: on the concrete two-order, one-truck input the multi-trip pass
retains a trip with zero loaded orders; that empty trip is counted in
`summary.totalTrips` (= 2) and, via `getTruckTotalRouteTime`, the
truck's total route time is 70 — the loaded trip's 40 plus one depot
reload of 30 for the retained empty trip; in general appending an empty
trip to any nonempty trip list adds exactly one `DEPOT_RELOAD_TIME`. -/
theorem c10_empty_trips_retained :
    (∃ twt ∈ (runOptimizationV3 [o1, o2] [t1]).trucksWithTrips,
       ∃ tr ∈ twt.trips, tr.loadedOrders = []) ∧
    (runOptimizationV3 [o1, o2] [t1]).summary.totalTrips = 2 ∧
    ((runOptimizationV3 [o1, o2] [t1]).trucksWithTrips.map (fun t => t.totalRouteTime)) = [70] ∧
    (∀ (trips : List TruckTrip) (tr : TruckTrip), trips ≠ [] → tr.loadedOrders = [] →
      getTruckTotalRouteTime (trips ++ [tr]) =
        getTruckTotalRouteTime trips + DEPOT_RELOAD_TIME) := by
  refine ⟨by decide, by decide, by decide, ?_⟩
  intro trips tr hn h
  exact getTruckTotalRouteTime_append_empty tr h trips hn

/-- Witness for C10's general clause at a concrete loaded trip and a
concrete empty trip. -/
theorem c10_empty_trips_retained_witness :
    [c7Trip] ≠ [] ∧ emptyTrip.loadedOrders = [] ∧
    getTruckTotalRouteTime ([c7Trip] ++ [emptyTrip]) =
      getTruckTotalRouteTime [c7Trip] + DEPOT_RELOAD_TIME :=
  ⟨by decide, rfl, c10_empty_trips_retained.2.2.2 [c7Trip] emptyTrip (by decide) rfl⟩
